import Mathlib

/-!
Verification of the connection-resolution and BOM-aggregation core of WireViz
(`src/wireviz/wv_dataclasses.py` and `src/wireviz/Harness.py`), via a shallow
embedding in Lean 4.

Python values that may be either an `int` or a `str` (pin ids, wire ids,
labels, references) are embedded as `PVal`.  Python dicts keyed by such values
are embedded as association lists with Python's update-in-place-or-append
semantics.  Python exceptions become an explicit `Err` value; functions that
can raise return `Except Err _`, and the stateful `Harness.connect` /
`Harness.add_mate_pin` are embedded in a state-passing style
`Harness → args → Harness × Option Err` that performs mutations exactly where
the Python source performs them, so that atomicity claims are meaningful.
-/

-- Structural decidable equality for `Except` results.
deriving instance DecidableEq for Except

namespace Wv

/-- A Python value that is either an `int` or a `str` (pin/wire ids, labels). -/
inductive PVal
  | pint (n : Int)
  | pstr (s : String)
deriving DecidableEq, Repr, Inhabited

/-- Number of occurrences of `a` in `l` (Python `list.count`). -/
def countOcc (a : PVal) (l : List PVal) : Nat :=
  (l.filter (fun b => decide (b = a))).length

/-- Index of the first occurrence of `a` in `l` (Python `list.index`; the
source only calls it under a prior membership check). -/
def idxOfP (a : PVal) : List PVal → Nat
  | [] => 0
  | b :: l => if b = a then 0 else idxOfP a l + 1

/-- Association-list lookup for string-keyed Python dicts. -/
def lookupA {α : Type} : List (String × α) → String → Option α
  | [], _ => none
  | (k, v) :: rest, key => if k = key then some v else lookupA rest key

/-- In-place modification of the value stored under `key` (a no-op when the key
is absent; the source only mutates entries it has already looked up). -/
def mapAtKey {α : Type} (key : String) (f : α → α) : List (String × α) → List (String × α)
  | [] => []
  | (k, v) :: rest => if k = key then (k, f v) :: rest else (k, v) :: mapAtKey key f rest

/-- Lookup in a `PVal`-keyed Python dict. -/
def lookupB : List (PVal × Bool) → PVal → Option Bool
  | [], _ => none
  | (k, v) :: rest, key => if k = key then some v else lookupB rest key

/-- Python dict assignment `d[k] = v`: update the existing entry in place, or
append a new one. -/
def dinsert (key : PVal) (v : Bool) : List (PVal × Bool) → List (PVal × Bool)
  | [] => [(key, v)]
  | (k, w) :: rest => if k = key then (k, v) :: rest else (k, w) :: dinsert key v rest

/-- `sum(d.values())` over a Python dict of booleans. -/
def boolSum (l : List (PVal × Bool)) : Nat :=
  l.foldr (fun kv acc => (if kv.2 then 1 else 0) + acc) 0

/-- The distinct exception sites of the embedded source.  Python raises plain
`Exception`/`ValueError`/`KeyError`/`AttributeError`/`IndexError` objects whose
messages distinguish the sites; the spec groups them into named error kinds. -/
inductive Err
  | ambiguousPin      -- "defined both in pinlabels and pins, for different pins"
  | duplicatePin      -- "is defined more than once" (pinlabels)
  | pinNotFound       -- "not found" (connect pin check)
  | ambiguousWire     -- "defined both in colors and wirelabels, for different wires"
  | duplicateWire     -- "is used for more than one wire"
  | pinIdNotFound     -- get_pin_by_id: "Pin ID ... not found"
  | pinIdDuplicate    -- get_pin_by_id: "Pin ID ... found more than once"
  | wireIdNotFound    -- get_wire_by_id: "Wire ID ... not found"
  | wireIdDuplicate   -- get_wire_by_id: "Wire ID ... found more than once"
  | keyError          -- Python KeyError on dict subscript
  | indexError        -- Python IndexError on list subscript
  | attributeError    -- Python AttributeError on a missing attribute
  | invalidMultiplier -- "invalid qty multiplier parameter"
  | simplePincount    -- "Connectors with style set to simple may only have one pin"
  | noPincount        -- "You need to specify at least one: pincount, pins, ..."
  | pinsNotUnique     -- "Pins are not unique"
  | loopLen           -- "Loops must be between exactly two pins!"
  | unknownColorCode  -- "Unknown color code"
  | noWirecount       -- "Unknown number of wires..."
  | shieldLabel       -- double-quoted s "may not be used as a wire label..."
  | partListMismatch  -- "lists of part data must match wirecount"
  | partListNotBundle -- "lists of part data are only supported for bundles"
  | malformedArrow    -- unparseable mate-arrow token
  | unknownBomItem    -- "Unknown type of item"
deriving DecidableEq, Repr

/-- `Side` enum of `wv_dataclasses.py`. -/
inductive Side
  | LEFT
  | RIGHT
deriving DecidableEq, Repr

/-- `ArrowDirection` enum. -/
inductive ArrowDirection
  | nodir
  | back
  | forward
  | both
deriving DecidableEq, Repr

/-- `ArrowWeight` enum. -/
inductive ArrowWeight
  | single
  | double
deriving DecidableEq, Repr

/-- `Arrow` dataclass. -/
structure Arrow where
  direction : ArrowDirection
  weight : ArrowWeight
deriving DecidableEq, Repr

/-- `PartNumberInfo` over scalar fields, as produced by `fill_partnumbers` for
connectors and additional components (and per-wire for bundles).
Modelled from the spec: `wv_bom.PartNumberInfo` is not under `src/`; per the
spec it is the part-number tuple component of the structural hash key. -/
structure PartNumberInfo where
  pn : Option String
  manufacturer : Option String
  mpn : Option String
  supplier : Option String
  spn : Option String
deriving DecidableEq, Repr, Inhabited

/-- `BomHash`: the immutable structural key `(description, unit,
partNumberInfo)`. Modelled from the spec: `wv_bom.BomHash` is not under
`src/`; per the spec it is a pure value-equality aggregation key. -/
structure BomHash where
  description : Option String
  unit : Option String
  partnumbers : PartNumberInfo
deriving DecidableEq, Repr, Inhabited

/-- A cable part-number field, which the YAML may supply either as a scalar or
as a per-wire list (`wv_dataclasses.py` keeps whichever was supplied). -/
inductive LS
  | scalar (v : Option String)
  | list (l : List String)
deriving DecidableEq, Repr, Inhabited

/-- `_force_list` of `Component.bom_hash`: keep lists, broadcast scalars to
`len(self.colors)` copies. -/
def forceList (n : Nat) : LS → List (Option String)
  | .scalar v => List.replicate n v
  | .list l => l.map some

/-- Per-index selection from a possibly-list field (what the broadcast/zip of
`Component.bom_hash` delivers at wire index `i`). -/
def LS.pick : LS → Nat → Option String
  | .scalar v, _ => v
  | .list l, i => l.get? i

/-- `PinClass` dataclass (pin colors are kept as raw strings; they play no
role in resolution). -/
structure PinClass where
  index : Nat
  id : Option PVal
  label : Option PVal
  color : Option String
  parent : String
  anonymous : Bool
  simple : Bool
deriving DecidableEq, Repr, Inhabited

/-- `WireClass` dataclass; `isShield` marks the `ShieldClass` subclass. -/
structure WireClass where
  index : Nat
  id : PVal
  label : Option PVal
  color : Option String
  parent : String
  isShield : Bool
deriving DecidableEq, Repr, Inhabited

/-- `Connection` dataclass: optional "from" pin, a wire, optional "to" pin. -/
structure Connection where
  from_pin : Option PinClass
  via : WireClass
  to_pin : Option PinClass
deriving DecidableEq, Repr

/-- `", ".join` over entries that are neither `None` nor the empty string
(the filter used by the `description` properties). -/
def joinComma (l : List (Option String)) : String :=
  String.intercalate ", " ((l.filterMap id).filter (fun s => decide (s ≠ "")))

/-- `AdditionalComponent` dataclass (`category` is `None` for these, so
`bom_hash` takes the single-hash branch). `remove_links` (in `wv_utils.py`,
not under `src/`) strips HTML hyperlinks and is the identity on the plain
strings modelled here. -/
structure AdditionalComponent where
  typ : String
  subtyp : Option String := none
  qty : Rat := 1
  unit : Option String := none
  qty_multiplier : Option String := none
  designators : Option String := none
  pn : Option String := none
  manufacturer : Option String := none
  mpn : Option String := none
  supplier : Option String := none
  spn : Option String := none
  ignore_in_bom : Bool := false
deriving DecidableEq, Repr

/-- `AdditionalComponent.description`: `", ".join([type, subtype or ""])`
(note: the join always has two elements, so a missing subtype leaves a
trailing separator, exactly as in the source). -/
def AdditionalComponent.description (a : AdditionalComponent) : String :=
  a.typ ++ ", " ++ a.subtyp.getD ""

/-- `AdditionalComponent.partnumbers` as filled by `fill_partnumbers`. -/
def AdditionalComponent.partnumbers (a : AdditionalComponent) : PartNumberInfo :=
  ⟨a.pn, a.manufacturer, a.mpn, a.supplier, a.spn⟩

/-- `Component.bom_hash`, non-bundle branch, for an additional component. -/
def AdditionalComponent.bom_hash (a : AdditionalComponent) : BomHash :=
  ⟨some a.description, a.unit, a.partnumbers⟩

/-- `AdditionalComponent.qty_final`: the source returns the hard-coded stub
value `999` (with a TODO about computing the real quantity). -/
def AdditionalComponent.qty_final (_ : AdditionalComponent) : Rat := 999

/-- `Connector` dataclass after `__post_init__` has run. -/
structure Connector where
  designator : String
  style : Option String
  typ : Option String
  subtyp : Option String
  color : Option String
  pincount : Nat
  pins : List PVal
  pinlabels : List PVal
  pincolors : List String
  pin_objects : List PinClass
  visible_pins : List (PVal × Bool)
  ports_left : Bool
  ports_right : Bool
  show_pincount : Bool
  show_name : Bool
  hide_disconnected_pins : Bool
  partnumbers : PartNumberInfo
  ignore_in_bom : Bool
  additional_components : List AdditionalComponent
deriving DecidableEq, Repr, Inhabited

/-- Arguments of the `Connector` dataclass constructor (fields the YAML layer
may supply, with the dataclass defaults). -/
structure ConnectorArgs where
  designator : String
  style : Option String := none
  typ : Option String := none
  subtyp : Option String := none
  color : Option String := none
  pincount : Option Nat := none
  pins : List PVal := []
  pinlabels : List PVal := []
  pincolors : List String := []
  show_pincount : Option Bool := none
  show_name : Option Bool := none
  hide_disconnected_pins : Bool := false
  pn : Option String := none
  manufacturer : Option String := none
  mpn : Option String := none
  supplier : Option String := none
  spn : Option String := none
  ignore_in_bom : Bool := false
  additional_components : List AdditionalComponent := []
  loops : List (List PVal) := []
deriving Repr

/-- Python truthiness of an optional pin count (`None` and `0` are falsy). -/
def falsyN : Option Nat → Bool
  | none => true
  | some n => decide (n = 0)

/-- `Option.getD · 0`, the value Python reads once truthiness is known. -/
def pcGet (o : Option Nat) : Nat := o.getD 0

/-- The pin-object construction of `Connector.__post_init__`:
`enumerate(zip_longest(pins, pinlabels, pincolors))`, with absent positions
padded by `None`.  Every produced pin carries its zero-based `index`. -/
def mkPinObjects (designator : String) (anonymous simple : Bool)
    (pins pinlabels : List PVal) (pincolors : List String) : List PinClass :=
  let n := max pins.length (max pinlabels.length pincolors.length)
  (List.range n).map fun j =>
    { index := j, id := pins.get? j, label := pinlabels.get? j,
      color := pincolors.get? j, parent := designator,
      anonymous := anonymous, simple := simple }

/-- `AUTOGENERATED_PREFIX` test used by `is_autogenerated`. -/
def isAutogen (designator : String) : Bool :=
  designator.startsWith "AUTOGENERATED_"

/-- `Connector.__post_init__`: the validation and pin-object construction of
the connector constructor.  Checks are performed in source order: the
simple-style pincount check, pincount determination, default sequential pin
ids, pin-id uniqueness, pin-object construction, display defaults, and the
loop length check. -/
def mkConnector (a : ConnectorArgs) : Except Err Connector :=
  if a.style = some "simple" ∧ falsyN a.pincount = false ∧ pcGet a.pincount > 1 then
    .error .simplePincount
  else
    let pc1 : Option Nat := if a.style = some "simple" then some 1 else a.pincount
    let pc2 : Nat :=
      if falsyN pc1 then max a.pins.length (max a.pinlabels.length a.pincolors.length)
      else pcGet pc1
    if pc2 = 0 then .error .noPincount
    else
      let pins := if a.pins.isEmpty then (List.range pc2).map (fun k => PVal.pint (k + 1))
                  else a.pins
      if ¬ pins.Nodup then .error .pinsNotUnique
      else if a.loops.any (fun l => decide (l.length ≠ 2)) then .error .loopLen
      else
        let anonymous := isAutogen a.designator
        let simple := a.style = some "simple"
        .ok {
          designator := a.designator
          style := a.style
          typ := a.typ
          subtyp := a.subtyp
          color := a.color
          pincount := pc2
          pins := pins
          pinlabels := a.pinlabels
          pincolors := a.pincolors
          pin_objects := mkPinObjects a.designator anonymous simple pins a.pinlabels a.pincolors
          visible_pins := []
          ports_left := false
          ports_right := false
          show_pincount := a.show_pincount.getD (¬ simple)
          show_name := a.show_name.getD (¬ simple ∧ ¬ anonymous)
          hide_disconnected_pins := a.hide_disconnected_pins
          partnumbers := ⟨a.pn, a.manufacturer, a.mpn, a.supplier, a.spn⟩
          ignore_in_bom := a.ignore_in_bom
          additional_components := a.additional_components
        }

/-- `Connector.get_pin_by_id` (via `_check_if_unique_id`): filter the pin
objects by id; zero matches and multiple matches raise, one match is
returned. -/
def Connector.get_pin_by_id (c : Connector) (pid : PVal) : Except Err PinClass :=
  match c.pin_objects.filter (fun po => decide (po.id = some pid)) with
  | [] => .error .pinIdNotFound
  | [po] => .ok po
  | _ :: _ :: _ => .error .pinIdDuplicate

/-- `Connector.activate_pin`: record the pin as visible and raise the
corresponding ports flag. -/
def Connector.activate_pin (c : Connector) (p : PVal) (s : Side) : Connector :=
  { c with
    visible_pins := dinsert p true c.visible_pins
    ports_left := if s = .LEFT then true else c.ports_left
    ports_right := if s = .RIGHT then true else c.ports_right }

/-- `Connector.description`. -/
def Connector.description (c : Connector) : String :=
  joinComma [some "Connector", c.typ, c.subtyp,
    if c.show_pincount then some (toString c.pincount ++ " pins") else none,
    c.color]

/-- `Connector.bom_hash` (single-hash branch of `Component.bom_hash`; the
`unit` property of connectors is always `None`). -/
def Connector.bom_hash (c : Connector) : BomHash :=
  ⟨some c.description, none, c.partnumbers⟩

/-- `Connector.get_qty_multiplier`.  A falsy multiplier (`None` or the empty
string) yields 1; `"pincount"` and `"populated"` are recognized; anything
else raises `ValueError`. -/
def Connector.get_qty_multiplier (c : Connector) (m : Option String) : Except Err Rat :=
  match m with
  | none => .ok 1
  | some s =>
    if s = "" then .ok 1
    else if s = "pincount" then .ok (c.pincount : Rat)
    else if s = "populated" then .ok ((boolSum c.visible_pins : Nat) : Rat)
    else .error .invalidMultiplier

/-- `Cable` dataclass after `__post_init__` has run.  `gauge` and `length`
are kept as already-parsed numbers (the string-splitting convenience parse in
`__post_init__` only normalizes `"number unit"` input and is not exercised by
any claim); part-number fields keep the scalar-or-list shape the YAML
supplied. -/
structure Cable where
  designator : String
  category : Option String
  typ : Option String
  subtyp : Option String
  color : Option String
  gauge : Option Rat
  gauge_unit : Option String
  length : Rat
  length_unit : Option String
  wirecount : Nat
  shield : Bool
  colors : List String
  wirelabels : List PVal
  wire_objects : List WireClass
  connections_ : List Connection
  pn : LS
  manufacturer : LS
  mpn : LS
  supplier : LS
  spn : LS
  ignore_in_bom : Bool
  additional_components : List AdditionalComponent
deriving DecidableEq, Repr, Inhabited

/-- Arguments of the `Cable` dataclass constructor. -/
structure CableArgs where
  designator : String
  category : Option String := none
  typ : Option String := none
  subtyp : Option String := none
  color : Option String := none
  gauge : Option Rat := none
  gauge_unit : Option String := none
  length : Rat := 0
  length_unit : Option String := none
  color_code : Option String := none
  wirecount : Option Nat := none
  shield : Bool := false
  colors : List String := []
  wirelabels : List PVal := []
  pn : LS := .scalar none
  manufacturer : LS := .scalar none
  mpn : LS := .scalar none
  supplier : LS := .scalar none
  spn : LS := .scalar none
  ignore_in_bom : Bool := false
  additional_components : List AdditionalComponent := []
deriving Repr

/-- Modelled from the spec: the standard color-code palettes live in
`wv_colors.py`, which the spec puts out of scope as a pure data table and
which is not under `src/`.  No claim supplies a `color_code`, so the table is
left empty; a cable that does supply one therefore reports the source's
"Unknown color code" error. -/
def COLOR_CODES : List (String × List String) := []

/-- The wire-object construction of `Cable.__post_init__`:
`enumerate(zip_longest(colors, wirelabels))`, wire ids being `index + 1`. -/
def mkWireObjects (designator : String) (colors : List String)
    (wirelabels : List PVal) : List WireClass :=
  let n := max colors.length wirelabels.length
  (List.range n).map fun j =>
    { index := j, id := PVal.pint (j + 1), label := wirelabels.get? j,
      color := colors.get? j, parent := designator, isShield := false }

/-- The wirecount/colors resolution block of `Cable.__post_init__`
(`if self.wirecount:` — 0 and None are falsy): an explicit wirecount loops a
custom palette, looks up a standard palette, or fills dummy colors; an
implicit wirecount is the length of the supplied colors list. -/
def resolveColors (wirecount0 : Option Nat) (colors0 : List String)
    (color_code : Option String) : Except Err (Nat × List String) :=
  if falsyN wirecount0 = false then
    let n := pcGet wirecount0
    if ¬ colors0.isEmpty then
      .ok (n, (List.range n).map (fun i => colors0.getD (i % colors0.length) ""))
    else match color_code with
      | some cc =>
        match lookupA COLOR_CODES cc with
        | none => .error .unknownColorCode
        | some palette =>
          .ok (n, (List.range n).map (fun i => palette.getD (i % palette.length) ""))
      | none => .ok (n, List.replicate n "")
  else
    if colors0.isEmpty then .error .noWirecount
    else .ok (colors0.length, colors0)

/-- The per-field part-number list check of `Cable.__post_init__`: lists are
only allowed on bundles and must match the wirecount. -/
def partListCheck (category : Option String) (wirecount : Nat) : LS → Option Err
  | .scalar _ => none
  | .list l =>
    if category = some "bundle" then
      if l.length ≠ wirecount then some .partListMismatch else none
    else some .partListNotBundle

/-- `Cable.__post_init__`: gauge-unit defaulting, length-unit defaulting,
wirecount/colors resolution (custom palette looping, standard palette, or
dummy colors), the shield "s" wirelabel check, the per-wire part-number list
checks, wire-object construction and the shield wire.  Checks happen in
source order. -/
def mkCable (a : CableArgs) : Except Err Cable :=
  let gauge_unit := if a.gauge.isSome ∧ a.gauge_unit.isNone then some "mm²" else a.gauge_unit
  let length_unit := if a.length_unit.isNone then some "m" else a.length_unit
  match resolveColors a.wirecount a.colors a.color_code with
  | .error e => .error e
  | .ok (wirecount, colors) =>
  if ¬ a.wirelabels.isEmpty ∧ a.shield ∧ PVal.pstr "s" ∈ a.wirelabels then
    .error .shieldLabel
  else
    -- the source iterates [manufacturer, mpn, supplier, spn, pn]
    match [a.manufacturer, a.mpn, a.supplier, a.spn, a.pn].findSome?
        (partListCheck a.category wirecount) with
    | some e => .error e
    | none =>
      let wires := mkWireObjects a.designator colors a.wirelabels
      let wires := if a.shield then
          wires ++ [{ index := wires.length, id := PVal.pstr "s", label := some (PVal.pstr "Shield"),
                      color := none, parent := a.designator, isShield := true }]
        else wires
      .ok {
        designator := a.designator
        category := a.category
        typ := a.typ
        subtyp := a.subtyp
        color := a.color
        gauge := a.gauge
        gauge_unit := gauge_unit
        length := a.length
        length_unit := length_unit
        wirecount := wirecount
        shield := a.shield
        colors := colors
        wirelabels := a.wirelabels
        wire_objects := wires
        connections_ := []
        pn := a.pn
        manufacturer := a.manufacturer
        mpn := a.mpn
        supplier := a.supplier
        spn := a.spn
        ignore_in_bom := a.ignore_in_bom
        additional_components := a.additional_components
      }

/-- `Cable.unit` property: the length unit. -/
def Cable.unit (cb : Cable) : Option String := cb.length_unit

/-- One element of the bundle `description` list.  The source builds the same
string for every wire index (the loop variable is unused in the string). -/
def Cable.bundleDescElem (cb : Cable) : String :=
  joinComma [some "Wire", cb.typ, cb.subtyp,
    (cb.gauge.map fun g => toString g ++ " " ++ cb.gauge_unit.getD ""),
    cb.color]

/-- `Cable.description`, bundle branch: one (identical) entry per color. -/
def Cable.descriptionList (cb : Cable) : List String :=
  cb.colors.map fun _ => cb.bundleDescElem

/-- `Cable.description`, non-bundle branch: pairs of (separator, value),
joined for values that are neither `None` nor empty. -/
def Cable.descriptionStr (cb : Cable) : String :=
  let pieces : List (String × Option String) :=
    [("", some "Cable"), (", ", cb.typ), (", ", cb.subtyp),
     (", ", some (toString cb.wirecount)),
     (" ", some (match cb.gauge with
        | some g => "x " ++ toString g ++ " " ++ cb.gauge_unit.getD ""
        | none => " wires")),
     (" ", if cb.shield then some "shielded" else none),
     (", ", cb.color)]
  String.join (pieces.filterMap fun sv =>
    match sv.2 with
    | none => none
    | some v => if v = "" then none else some (sv.1 ++ v))

/-- The result of `Component.bom_hash`: a single hash, or one hash per wire
for bundles. -/
inductive BomHashResult
  | single (h : BomHash)
  | perWire (l : List BomHash)
deriving DecidableEq, Repr

/-- The bundle branch of `Component.bom_hash`: collect description, unit and
the part-number fields, broadcast non-list fields to `len(self.colors)`
copies (`_force_list`), transpose (`zip(*)`, which truncates at the shortest
list), and build one `BomHash` per wire index.
Modelled from the spec where it leans on `wv_bom.BomHashList` (not under
`src/`): per spec §4.4 the hasher aligns description, unit, and each
part-number field to wire-index before zipping. -/
def Cable.bomHashList (cb : Cable) : List BomHash :=
  let n := cb.colors.length
  let descL : List (Option String) := cb.descriptionList.map some
  let unitL : List (Option String) := List.replicate n cb.unit
  let pnL := forceList n cb.pn
  let mfrL := forceList n cb.manufacturer
  let mpnL := forceList n cb.mpn
  let supL := forceList n cb.supplier
  let spnL := forceList n cb.spn
  let m := min descL.length (min unitL.length (min pnL.length (min mfrL.length
             (min mpnL.length (min supL.length spnL.length)))))
  (List.range m).map fun i =>
    ⟨descL.getD i none, unitL.getD i none,
     ⟨pnL.getD i none, mfrL.getD i none, mpnL.getD i none, supL.getD i none, spnL.getD i none⟩⟩

/-- Scalar reading of a part-number field for the single-hash branch
(`mkCable` rejects list-shaped fields on non-bundles, so on constructed
non-bundle cables the field is always a scalar). -/
def LS.asScalar : LS → Option String
  | .scalar v => v
  | .list _ => none

/-- The single (non-bundle) `Component.bom_hash` value of a cable. -/
def Cable.bomHashSingle (cb : Cable) : BomHash :=
  ⟨some cb.descriptionStr, cb.unit,
    ⟨cb.pn.asScalar, cb.manufacturer.asScalar, cb.mpn.asScalar,
     cb.supplier.asScalar, cb.spn.asScalar⟩⟩

/-- `Component.bom_hash` for a cable: per-wire hashes for bundles, a single
hash otherwise. -/
def Cable.bom_hash (cb : Cable) : BomHashResult :=
  if cb.category = some "bundle" then .perWire cb.bomHashList
  else .single cb.bomHashSingle

/-- `Cable.get_wire_by_id`: filter the wire objects by id; zero matches and
multiple matches raise, one match is returned. -/
def Cable.get_wire_by_id (cb : Cable) (wid : PVal) : Except Err WireClass :=
  match cb.wire_objects.filter (fun w => decide (w.id = wid)) with
  | [] => .error .wireIdNotFound
  | [w] => .ok w
  | _ :: _ :: _ => .error .wireIdDuplicate

/-- `Cable._connect`: look up the wire (which may raise), then append a new
`Connection` record at the end of `_connections`. -/
def Cable.connect_ (cb : Cable) (from_pin_obj : Option PinClass) (via_wire_id : PVal)
    (to_pin_obj : Option PinClass) : Except Err Cable :=
  match cb.get_wire_by_id via_wire_id with
  | .error e => .error e
  | .ok w => .ok { cb with connections_ := cb.connections_ ++ [⟨from_pin_obj, w, to_pin_obj⟩] }

/-- `Cable.get_qty_multiplier`.  The `"terminations"` branch evaluates
`len(self.connections)`; the `Cable` class hierarchy defines only the field
`_connections` and no attribute or property named `connections`, so this
branch raises `AttributeError` at runtime. -/
def Cable.get_qty_multiplier (cb : Cable) (m : Option String) : Except Err Rat :=
  match m with
  | none => .ok 1
  | some s =>
    if s = "" then .ok 1
    else if s = "wirecount" then .ok (cb.wirecount : Rat)
    else if s = "terminations" then .error .attributeError
    else if s = "length" then .ok cb.length
    else if s = "total_length" then .ok (cb.length * cb.wirecount)
    else .error .invalidMultiplier

/-- Mate records: `MatePin` and `MateComponent` dataclasses. -/
inductive Mate
  | matePin (fp tp : PinClass) (arrow : Arrow)
  | mateComponent (f t : String) (arrow : Arrow)
deriving DecidableEq, Repr

/-- One accumulated BOM line item: `{qty, designators (a set), category}`.
The designator set is kept as a duplicate-free insertion-ordered list. -/
structure BomEntry where
  qty : Rat
  designators : List String
  category : Option String
deriving DecidableEq, Repr

/-- Python set insertion (no duplicates). -/
def sinsert (s : String) (l : List String) : List String :=
  if s ∈ l then l else l ++ [s]

/-- The internal BOM: a dict keyed by `BomHash` (or Python `None`). -/
abbrev Bom := List (Option BomHash × BomEntry)

/-- Lookup in the BOM dict. -/
def lookupBom : Bom → Option BomHash → Option BomEntry
  | [], _ => none
  | (k, v) :: rest, key => if k = key then some v else lookupBom rest key

/-- Dict assignment into the BOM (update in place, or append a new key). -/
def setBom (key : Option BomHash) (e : BomEntry) : Bom → Bom
  | [] => [(key, e)]
  | (k, v) :: rest => if k = key then (k, e) :: rest else (k, v) :: setBom key e rest

/-- The inner `_add` of `Harness._add_to_internal_bom`: fetch (or
default-initialize) the entry under `hash`, add `qty`, insert the designator
into the set when it is non-empty and not autogenerated, and assign the
category (last write wins).  All call sites in the source pass the designator
as a scalar or `None` (the list branch of `_add` is never exercised). -/
def bomAdd (bom : Bom) (hash : Option BomHash) (designator : Option String)
    (qty : Rat) (category : Option String) : Bom :=
  let e0 := (lookupBom bom hash).getD ⟨0, [], none⟩
  let e1 := { e0 with qty := e0.qty + qty }
  let e2 := match designator with
    | none => e1
    | some d =>
      if d ≠ "" ∧ ¬ isAutogen d then { e1 with designators := sinsert d e1.designators }
      else e1
  setBom hash { e2 with category := category } bom

/-- The three kinds of item `Harness._add_to_internal_bom` dispatches on (the
source's final `isinstance` fall-through, "Unknown type of item", is
unreachable in this typed embedding). -/
inductive BomItem
  | conn (c : Connector)
  | cable (cb : Cable)
  | addl (a : AdditionalComponent)

/-- `Harness._add_to_internal_bom`.  Connectors contribute their own hash plus
their additional components; non-bundle cables contribute their single hash
with quantity `length`, while the bundle branch of the source accumulates,
for each wire object, under hash `None` with quantity `length + 0.001` and
category `"wire DUMMY"`; additional components contribute their own hash. -/
def addToInternalBom (bom : Bom) : BomItem → Bom
  | .conn c =>
    if c.ignore_in_bom then bom
    else
      let bom1 := bomAdd bom (some c.bom_hash) (some c.designator) 1 (some "connector")
      c.additional_components.foldl (fun b comp =>
        if comp.ignore_in_bom then b
        else bomAdd b (some comp.bom_hash) (some c.designator) comp.qty_final
          (some "connector/additional")) bom1
  | .cable cb =>
    if cb.ignore_in_bom then bom
    else
      let isBundle := cb.category = some "bundle"
      let cat := if isBundle then "wire" else "cable"
      let bom1 :=
        if isBundle then
          cb.wire_objects.foldl (fun b _ =>
            bomAdd b none (some cb.designator) (cb.length + 1 / 1000) (some "wire DUMMY")) bom
        else
          bomAdd bom (some cb.bomHashSingle) (some cb.designator) cb.length (some "cable")
      cb.additional_components.foldl (fun b comp =>
        if comp.ignore_in_bom then b
        else bomAdd b (some comp.bom_hash) (some cb.designator) comp.qty_final
          (some (cat ++ "/additional"))) bom1
  | .addl a =>
    if a.ignore_in_bom then bom
    else bomAdd bom (some a.bom_hash) a.designators a.qty_final (some "additional")

/-- The `Harness` state: connector and cable dicts, mate list, internal BOM. -/
structure Harness where
  connectors : List (String × Connector)
  cables : List (String × Cable)
  mates : List Mate
  bom : Bom
deriving DecidableEq, Repr

/-- One iteration of the endpoint-checking loop at the top of
`Harness.connect`: ambiguity check between `pins` and `pinlabels`,
duplicate-label check, label-to-id mapping, and the final membership check.
Returns `some mappedPin` when the label branch rewrote the pin (the Python
write-back), `none` when the pin passed through unchanged (including the
cases of an open end or an unknown connector name, which the loop skips). -/
def iterBody (h : Harness) (name : Option String) (pin : PVal) : Except Err (Option PVal) :=
  match name with
  | none => .ok none
  | some n =>
    match lookupA h.connectors n with
    | none => .ok none
    | some c =>
      if pin ∈ c.pins ∧ pin ∈ c.pinlabels ∧ idxOfP pin c.pins ≠ idxOfP pin c.pinlabels then
        .error .ambiguousPin
      else if pin ∈ c.pinlabels then
        if countOcc pin c.pinlabels > 1 then .error .duplicatePin
        else
          match c.pins.get? (idxOfP pin c.pinlabels) with
          | none => .error .indexError
          | some newPin =>
            if newPin ∈ c.pins then .ok (some newPin) else .error .pinNotFound
      else if pin ∈ c.pins then .ok none
      else .error .pinNotFound

/-- The endpoint loop of `Harness.connect`:
`for (name, pin) in zip([from_name, to_name], [from_pin, to_pin])`.
The `zip` snapshots the original pin references, but the write-backs
`if name == from_name: from_pin = pin` / `if name == to_name: to_pin = pin`
compare connector *names*, so when both ends name the same connector one
end's mapped pin overwrites the other's. -/
def connectResolve (h : Harness) (fn : Option String) (fp : PVal) (tn : Option String)
    (tp : PVal) : Except Err (PVal × PVal) :=
  match iterBody h fn fp with
  | .error e => .error e
  | .ok r1 =>
    let fp1 := r1.getD fp
    let tp1 := match r1 with
      | some m => if fn = tn then m else tp
      | none => tp
    match iterBody h tn tp with
    | .error e => .error e
    | .ok r2 =>
      let fp2 := match r2 with
        | some m => if tn = fn then m else fp1
        | none => fp1
      let tp2 := r2.getD tp1
      .ok (fp2, tp2)

/-- The wire-reference block of `Harness.connect`: ambiguity between `colors`
and `wirelabels`, duplicate checks, and mapping a matched color or label to
the 1-based wire id.  An unknown cable name skips the block (the failure
surfaces later as a `KeyError`); an unmatched reference passes through. -/
def resolveWireRef (h : Harness) (vn : String) (vw : PVal) : Except Err PVal :=
  match lookupA h.cables vn with
  | none => .ok vw
  | some cb =>
    let colorsP := cb.colors.map PVal.pstr
    if vw ∈ colorsP ∧ vw ∈ cb.wirelabels ∧ idxOfP vw colorsP ≠ idxOfP vw cb.wirelabels then
      .error .ambiguousWire
    else if vw ∈ colorsP then
      if countOcc vw colorsP > 1 then .error .duplicateWire
      else .ok (PVal.pint (idxOfP vw colorsP + 1))
    else if vw ∈ cb.wirelabels then
      if countOcc vw cb.wirelabels > 1 then .error .duplicateWire
      else .ok (PVal.pint (idxOfP vw cb.wirelabels + 1))
    else .ok vw

/-- The pin-object resolution of `Harness.connect`: an open end yields `None`;
a named end subscripts the connector dict (`KeyError` when absent) and calls
`get_pin_by_id`. -/
def getPinObjOpt (h : Harness) (name : Option String) (pin : PVal) :
    Except Err (Option PinClass) :=
  match name with
  | none => .ok none
  | some n =>
    match lookupA h.connectors n with
    | none => .error .keyError
    | some c =>
      match c.get_pin_by_id pin with
      | .error e => .error e
      | .ok po => .ok (some po)

/-- `if name in self.connectors: self.connectors[name].activate_pin(pin, side)`
(`None in dict` is false in Python, so an open end is a no-op). -/
def activateIf (h : Harness) (name : Option String) (pin : PVal) (s : Side) : Harness :=
  match name with
  | none => h
  | some n =>
    if (lookupA h.connectors n).isSome then
      { h with connectors := mapAtKey n (fun c => c.activate_pin pin s) h.connectors }
    else h

/-- The mutation suffix of `Harness.connect`: append the new `Connection`
record to the via cable's `_connections`, then activate the from pin on side
RIGHT and the to pin on side LEFT. -/
def connectCommit (h : Harness) (fn : Option String) (fp2 : PVal) (tn : Option String)
    (tp2 : PVal) (vn : String) (fpo tpo : Option PinClass) (w : WireClass) : Harness :=
  let h1 := { h with cables := mapAtKey vn (fun cb =>
      { cb with connections_ := cb.connections_ ++ [⟨fpo, w, tpo⟩] }) h.cables }
  activateIf (activateIf h1 fn fp2 .RIGHT) tn tp2 .LEFT

/-- `Harness.connect`, in state-passing style.  Every Python `raise` becomes
`(h, some err)` with the harness exactly as it was; all mutations happen in
`connectCommit`, after the last fallible step (`get_wire_by_id` inside
`Cable._connect` runs before the append), exactly as in the source. -/
def connectS (h : Harness) (fn : Option String) (fp : PVal) (vn : String) (vw : PVal)
    (tn : Option String) (tp : PVal) : Harness × Option Err :=
  match connectResolve h fn fp tn tp with
  | .error e => (h, some e)
  | .ok (fp2, tp2) =>
    match resolveWireRef h vn vw with
    | .error e => (h, some e)
    | .ok vw2 =>
      match getPinObjOpt h fn fp2 with
      | .error e => (h, some e)
      | .ok fpo =>
        match getPinObjOpt h tn tp2 with
        | .error e => (h, some e)
        | .ok tpo =>
          match lookupA h.cables vn with
          | none => (h, some .keyError)
          | some cb =>
            match cb.get_wire_by_id vw2 with
            | .error e => (h, some e)
            | .ok w => (connectCommit h fn fp2 tn tp2 vn fpo tpo w, none)

/-- Modelled from the spec: `parse_arrow_str` lives in `wv_gv_html.py`, which
is not under `src/`.  Per spec §4.3 the token encodes two ends, each drawn
from {none, back, forward}; the two ends combine into one direction, and an
unrecognized token yields MalformedArrowToken. -/
def parseArrowStr (s : String) : Except Err ArrowDirection :=
  let bk := s.startsWith "<"
  let fw := s.endsWith ">"
  let core := (s.drop (if bk then 1 else 0)).dropRight (if fw then 1 else 0)
  if core.length > 0 ∧ core.toList.all (fun c => decide (c = '-' ∨ c = '=')) then
    .ok (if bk ∧ fw then .both else if bk then .back else if fw then .forward else .nodir)
  else .error .malformedArrow

/-- The mutation suffix of `Harness.add_mate_pin`: append the `MatePin`
record, then activate the from pin on side RIGHT and the to pin on side
LEFT (both connectors are known to be present at this point). -/
def mateCommit (h : Harness) (fn : String) (fp : PVal) (tn : String) (tp : PVal)
    (fpo tpo : PinClass) (dir : ArrowDirection) : Harness :=
  let h1 := { h with mates := h.mates ++ [Mate.matePin fpo tpo ⟨dir, ArrowWeight.single⟩] }
  let h2 := { h1 with
    connectors := mapAtKey fn (fun c => c.activate_pin fp .RIGHT) h1.connectors }
  { h2 with connectors := mapAtKey tn (fun c => c.activate_pin tp .LEFT) h2.connectors }

/-- `Harness.add_mate_pin`, in state-passing style: both connector subscripts
(`KeyError`), both `get_pin_by_id` calls and the arrow parse happen before
the mate record is appended and the two pins are activated (RIGHT for the
from pin, LEFT for the to pin). -/
def addMatePinS (h : Harness) (fn : String) (fp : PVal) (tn : String) (tp : PVal)
    (arrow_str : String) : Harness × Option Err :=
  match lookupA h.connectors fn with
  | none => (h, some .keyError)
  | some fc =>
    match fc.get_pin_by_id fp with
    | .error e => (h, some e)
    | .ok fpo =>
      match lookupA h.connectors tn with
      | none => (h, some .keyError)
      | some tc =>
        match tc.get_pin_by_id tp with
        | .error e => (h, some e)
        | .ok tpo =>
          match parseArrowStr arrow_str with
          | .error e => (h, some e)
          | .ok dir => (mateCommit h fn fp tn tp fpo tpo dir, none)

/-- `Harness.add_mate_component`: no pin-level resolution, just a record. -/
def addMateComponentS (h : Harness) (fn tn : String) (arrow_str : String) :
    Harness × Option Err :=
  match parseArrowStr arrow_str with
  | .error e => (h, some e)
  | .ok dir => ({ h with mates := h.mates ++ [Mate.mateComponent fn tn ⟨dir, ArrowWeight.single⟩] }, none)

/-- The per-end resolution of a connect reference, as the spec's Symbol
Resolver describes it: the pin a single endpoint's reference resolves to
against its own connector (label-mapped when the label branch fires,
unchanged otherwise). -/
def resolveEndPin (h : Harness) (n : String) (p : PVal) : Except Err PVal :=
  match iterBody h (some n) p with
  | .error e => .error e
  | .ok (some m) => .ok m
  | .ok none => .ok p

/-! ## Concrete fixtures -/

/-- Evaluate a constructor application known to succeed (used only to build
concrete fixtures; every fixture built this way comes with an explicit
`mk... = .ok ...` fact inside the theorem that uses it). -/
def getOk {α : Type} [Inhabited α] : Except Err α → α
  | .ok a => a
  | .error _ => default

/-- Connector A: three pins, default ids 1..3. -/
def exConnA : Connector := getOk (mkConnector { designator := "A", pincount := some 3 })

/-- Connector B: three pins, default ids 1..3. -/
def exConnB : Connector := getOk (mkConnector { designator := "B", pincount := some 3 })

/-- Cable W1: two wires, unit length 1. -/
def exCabW1 : Cable := getOk (mkCable { designator := "W1", wirecount := some 2, length := 1 })

/-- The harness of the spec's scenario: connectors A and B, cable W1. -/
def exHarness0 : Harness :=
  { connectors := [("A", exConnA), ("B", exConnB)], cables := [("W1", exCabW1)],
    mates := [], bom := [] }

/-- State after `connect(A, 1, W1, 1, B, 1)`. -/
def exHarness1 : Harness :=
  (connectS exHarness0 (some "A") (.pint 1) "W1" (.pint 1) (some "B") (.pint 1)).1

/-- State after the further `connect(A, 2, W1, 2, B, 2)`. -/
def exHarness2 : Harness :=
  (connectS exHarness1 (some "A") (.pint 2) "W1" (.pint 2) (some "B") (.pint 2)).1

/-- Connector X: pins 1, 2 with pin labels "a", "b". -/
def exConnX : Connector := getOk (mkConnector
  { designator := "X", pins := [.pint 1, .pint 2], pinlabels := [.pstr "a", .pstr "b"] })

/-- Harness with the labelled connector X and cable W1. -/
def exHarnessX : Harness :=
  { connectors := [("X", exConnX)], cables := [("W1", exCabW1)], mates := [], bom := [] }

/-- Connector Y: the string "X" is both the id of pin 0 and a pin label used
twice (at indices 0 and 1). -/
def exConnY : Connector := getOk (mkConnector
  { designator := "Y", pins := [.pstr "X", .pint 2], pinlabels := [.pstr "X", .pstr "X"] })

/-- Harness with connector Y and cable W1. -/
def exHarnessY : Harness :=
  { connectors := [("Y", exConnY)], cables := [("W1", exCabW1)], mates := [], bom := [] }

/-- Connector Z: pins 1, 2 and the label "d" used twice. -/
def exConnZ : Connector := getOk (mkConnector
  { designator := "Z", pins := [.pint 1, .pint 2], pinlabels := [.pstr "d", .pstr "d"] })

/-- Harness with connector Z and cable W1. -/
def exHarnessZ : Harness :=
  { connectors := [("Z", exConnZ)], cables := [("W1", exCabW1)], mates := [], bom := [] }

/-- Connector Q: the reference "X" occurs as the id of pin index 1 and as the
label of pin index 0 — two different indices. -/
def exConnQ : Connector := getOk (mkConnector
  { designator := "Q", pins := [.pint 1, .pstr "X"], pinlabels := [.pstr "X", .pstr "b"] })

/-- Cable W5: the looped palette repeats the color "r" over both wires, and
the wirelabel "r" sits at the same first index 0. -/
def exCabW5 : Cable := getOk (mkCable
  { designator := "W5", wirecount := some 2, colors := ["r"],
    wirelabels := [.pstr "r", .pstr "x"] })

/-- Cable W6: colors ["g", "b"] and the wirelabel "g" used twice; the
reference "g" matches a color exactly once, at the same first index 0. -/
def exCabW6 : Cable := getOk (mkCable
  { designator := "W6", wirecount := some 2, colors := ["g", "b"],
    wirelabels := [.pstr "g", .pstr "g"] })

/-- Harness with connector Q and the wire-reference test cables. -/
def exHarnessQ : Harness :=
  { connectors := [("Q", exConnQ)],
    cables := [("W1", exCabW1), ("W5", exCabW5), ("W6", exCabW6)],
    mates := [], bom := [] }

/-- Constructor arguments of a three-wire bundle with a per-wire pn list and a
broadcast (scalar) manufacturer. -/
def exBundleArgs : CableArgs where
  designator := "W2"
  category := some "bundle"
  wirecount := some 3
  pn := .list ["p1", "p2", "p3"]
  manufacturer := .scalar (some "M")

/-- The three-wire bundle itself. -/
def exBundle : Cable := getOk (mkCable exBundleArgs)

/-- A two-wire bundle of length 1 (fed to the BOM aggregator). -/
def exBundleW4 : Cable := getOk (mkCable
  { designator := "W4", category := some "bundle", wirecount := some 2, length := 1 })

/-- An additional component; two copies under different designators are fed to
the aggregator. -/
def exAC : AdditionalComponent := { typ := "Crimp", subtyp := some "X", pn := some "P" }

/-! ## Supporting lemmas -/

/-- A filter whose predicate is satisfied by exactly one element of a
duplicate-free list yields that singleton. -/
lemma filter_eq_singleton {α : Type} {l : List α} {p : α → Bool} {a : α}
    (hnd : l.Nodup) (hmem : a ∈ l) (hpa : p a = true)
    (huniq : ∀ x ∈ l, p x = true → x = a) :
    l.filter p = [a] := by
  induction l with
  | nil => cases hmem
  | cons b t ih =>
    rcases List.nodup_cons.mp hnd with ⟨hbt, hndt⟩
    by_cases hpb : p b = true
    · have hba : b = a := huniq b (List.mem_cons_self b t) hpb
      subst hba
      have ht : t.filter p = [] := by
        rw [List.filter_eq_nil_iff]
        intro x hx hpx
        exact hbt ((huniq x (List.mem_cons_of_mem _ hx) hpx) ▸ hx)
      simp [List.filter_cons, hpb, ht]
    · have hat : a ∈ t := by
        rcases List.mem_cons.mp hmem with h | h
        · exact absurd (h ▸ hpa) hpb
        · exact h
      have hrec := ih hndt hat (fun x hx hpx => huniq x (List.mem_cons_of_mem _ hx) hpx)
      simp [List.filter_cons, hpb, hrec]

/-- Success shape of `mkConnector`: a constructed connector has
duplicate-free pin ids and its pin objects are exactly the
enumerate-zip-longest construction over its own pin/label/color lists. -/
lemma mkConnector_ok (a : ConnectorArgs) (c : Connector) (hok : mkConnector a = .ok c) :
    c.pins.Nodup ∧
    c.pin_objects = mkPinObjects c.designator (isAutogen c.designator)
      (c.style = some "simple") c.pins c.pinlabels c.pincolors := by
  unfold mkConnector at hok
  try simp only [] at hok
  repeat' split at hok
  any_goals solve
    | exfalso
      simp_all [falsyN, pcGet]
  all_goals
    rw [Except.ok.injEq] at hok
    subst hok
    refine ⟨?_, rfl⟩
    simp_all

/-- The element found at the first-occurrence index of a member is that
member (Python `l[l.index(a)] == a`). -/
lemma idxOfP_get? {a : PVal} : ∀ {l : List PVal}, a ∈ l → l.get? (idxOfP a l) = some a := by
  intro l h
  induction l with
  | nil => cases h
  | cons b t ih =>
    unfold idxOfP
    by_cases hba : b = a
    · rw [if_pos hba, hba]
      rfl
    · rw [if_neg hba, List.get?_cons_succ]
      refine ih ?_
      rcases List.mem_cons.mp h with h1 | h1
      · exact absurd h1.symm hba
      · exact h1

/-- Lookup after an in-place update: the updated key maps through `f`, every
other key is untouched. -/
lemma lookupA_mapAtKey {α : Type} (key m : String) (f : α → α) (l : List (String × α)) :
    lookupA (mapAtKey key f l) m
      = if m = key then (lookupA l m).map f else lookupA l m := by
  induction l with
  | nil => simp [mapAtKey, lookupA]
  | cons kv rest ih =>
    obtain ⟨k, v⟩ := kv
    unfold mapAtKey
    by_cases hk : k = key
    · rw [if_pos hk]
      subst hk
      unfold lookupA
      by_cases hkm : k = m
      · subst hkm
        simp [lookupA]
      · simp [lookupA, hkm, Ne.symm hkm]
    · rw [if_neg hk]
      unfold lookupA
      by_cases hkm : k = m
      · subst hkm
        simp [lookupA, hk]
      · simp only [if_neg hkm]
        rw [ih]

/-- `dinsert` writes the requested value under the requested key. -/
lemma lookupB_dinsert_self (key : PVal) (v : Bool) (l : List (PVal × Bool)) :
    lookupB (dinsert key v l) key = some v := by
  induction l with
  | nil => simp [dinsert, lookupB]
  | cons kv rest ih =>
    obtain ⟨k, w⟩ := kv
    by_cases hk : k = key <;> simp_all [dinsert, lookupB]

/-- `dinsert` leaves every other key untouched. -/
lemma lookupB_dinsert_ne (key k : PVal) (v : Bool) (l : List (PVal × Bool)) (hk : k ≠ key) :
    lookupB (dinsert key v l) k = lookupB l k := by
  induction l with
  | nil => simp [dinsert, lookupB, Ne.symm hk]
  | cons kv rest ih =>
    obtain ⟨k1, w⟩ := kv
    by_cases hk1 : k1 = key <;> by_cases hk2 : k1 = k <;>
      simp_all [dinsert, lookupB]

/-- The connector fields read by reference resolution; the connect/mate
mutations never write them. -/
def connStatic (c : Connector) : List PVal × List PVal × List PinClass :=
  (c.pins, c.pinlabels, c.pin_objects)

/-- The cable fields read by reference resolution. -/
def cabStatic (cb : Cable) : List String × List PVal × List WireClass :=
  (cb.colors, cb.wirelabels, cb.wire_objects)

/-- Pin activation changes only the activation state. -/
lemma activate_pin_static (c : Connector) (p : PVal) (s : Side) :
    connStatic (c.activate_pin p s) = connStatic c := rfl

/-- `activateIf` never touches the cables. -/
lemma activateIf_cables (h : Harness) (nm : Option String) (p : PVal) (s : Side) :
    (activateIf h nm p s).cables = h.cables := by
  unfold activateIf
  rcases nm with _ | n
  · rfl
  · dsimp only
    split <;> rfl

/-- Lookup through `activateIf`: the activated connector (when present) maps
through `activate_pin`, everything else is untouched. -/
lemma activateIf_lookup (h : Harness) (nm : Option String) (p : PVal) (s : Side) (m : String) :
    lookupA (activateIf h nm p s).connectors m
      = if some m = nm ∧ (lookupA h.connectors m).isSome
        then (lookupA h.connectors m).map (fun c => c.activate_pin p s)
        else lookupA h.connectors m := by
  unfold activateIf
  rcases nm with _ | n
  · simp
  · dsimp only
    by_cases hns : (lookupA h.connectors n).isSome
    · rw [if_pos hns]
      dsimp only
      rw [lookupA_mapAtKey]
      by_cases hmn : m = n
      · subst hmn
        simp [hns]
      · rw [if_neg hmn, if_neg (fun hcon => hmn (Option.some.injEq m n ▸ hcon.1))]
    · rw [if_neg hns]
      by_cases hmn : m = n
      · subst hmn
        simp [hns]
      · rw [if_neg (fun hcon => hmn (Option.some.injEq m n ▸ hcon.1))]

/-- Cable lookup through `connectCommit`: the via cable gets the appended
connection record, every other cable is untouched. -/
lemma connectCommit_cables_lookup (h : Harness) (fn : Option String) (fp2 : PVal)
    (tn : Option String) (tp2 : PVal) (vn : String) (fpo tpo : Option PinClass)
    (w : WireClass) (m : String) :
    lookupA (connectCommit h fn fp2 tn tp2 vn fpo tpo w).cables m
      = if m = vn
        then (lookupA h.cables m).map
          (fun cb => { cb with connections_ := cb.connections_ ++ [⟨fpo, w, tpo⟩] })
        else lookupA h.cables m := by
  unfold connectCommit
  rw [activateIf_cables, activateIf_cables]
  dsimp only
  rw [lookupA_mapAtKey]

/-- Connector lookup through `connectCommit`, expressed via the two
`activateIf` layers over the original connectors. -/
lemma connectCommit_connectors_lookup (h : Harness) (fn : Option String) (fp2 : PVal)
    (tn : Option String) (tp2 : PVal) (vn : String) (fpo tpo : Option PinClass)
    (w : WireClass) (m : String) :
    lookupA (connectCommit h fn fp2 tn tp2 vn fpo tpo w).connectors m
      = (if some m = tn ∧
            (if some m = fn ∧ (lookupA h.connectors m).isSome
             then (lookupA h.connectors m).map (fun c => c.activate_pin fp2 .RIGHT)
             else lookupA h.connectors m).isSome
         then (if some m = fn ∧ (lookupA h.connectors m).isSome
               then (lookupA h.connectors m).map (fun c => c.activate_pin fp2 .RIGHT)
               else lookupA h.connectors m).map (fun c => c.activate_pin tp2 .LEFT)
         else (if some m = fn ∧ (lookupA h.connectors m).isSome
               then (lookupA h.connectors m).map (fun c => c.activate_pin fp2 .RIGHT)
               else lookupA h.connectors m)) := by
  unfold connectCommit
  rw [activateIf_lookup]
  rw [activateIf_lookup]

/-- Static connector data survives `connectCommit`. -/
lemma connectCommit_conn_static (h : Harness) (fn : Option String) (fp2 : PVal)
    (tn : Option String) (tp2 : PVal) (vn : String) (fpo tpo : Option PinClass)
    (w : WireClass) (m : String) :
    (lookupA (connectCommit h fn fp2 tn tp2 vn fpo tpo w).connectors m).map connStatic
      = (lookupA h.connectors m).map connStatic := by
  rw [connectCommit_connectors_lookup]
  set inner := if some m = fn ∧ (lookupA h.connectors m).isSome
      then (lookupA h.connectors m).map (fun c => c.activate_pin fp2 .RIGHT)
      else lookupA h.connectors m with hinner
  have hinner_static : inner.map connStatic = (lookupA h.connectors m).map connStatic := by
    rw [hinner]
    split
    · rcases lookupA h.connectors m with _ | c
      · rfl
      · rfl
    · rfl
  split
  · rename_i hcond
    rcases einner : inner with _ | c
    · rw [einner] at hcond
      simp at hcond
    · have h2 := hinner_static
      rw [einner] at h2
      calc Option.map connStatic (Option.map (fun c => c.activate_pin tp2 Side.LEFT) (some c))
          = Option.map connStatic (some c) := rfl
        _ = Option.map connStatic (lookupA h.connectors m) := h2
  · exact hinner_static

/-- Static cable data survives `connectCommit`. -/
lemma connectCommit_cab_static (h : Harness) (fn : Option String) (fp2 : PVal)
    (tn : Option String) (tp2 : PVal) (vn : String) (fpo tpo : Option PinClass)
    (w : WireClass) (m : String) :
    (lookupA (connectCommit h fn fp2 tn tp2 vn fpo tpo w).cables m).map cabStatic
      = (lookupA h.cables m).map cabStatic := by
  rw [connectCommit_cables_lookup]
  rcases e : lookupA h.cables m with _ | cb
  · simp
  · by_cases h1 : m = vn <;> simp [h1, cabStatic]

/-- The endpoint iteration reads only static connector data. -/
lemma iterBody_congr (h h1 : Harness)
    (hc : ∀ m, (lookupA h1.connectors m).map connStatic
      = (lookupA h.connectors m).map connStatic)
    (nm : Option String) (p : PVal) :
    iterBody h1 nm p = iterBody h nm p := by
  unfold iterBody
  rcases nm with _ | n
  · rfl
  · have hcn := hc n
    rcases e1 : lookupA h1.connectors n with _ | c1 <;>
      rcases e2 : lookupA h.connectors n with _ | c2
    · simp only [e1, e2]
    · rw [e1, e2] at hcn
      exact absurd hcn (by simp)
    · rw [e1, e2] at hcn
      exact absurd hcn (by simp)
    · rw [e1, e2] at hcn
      simp only [Option.map_some', Option.some.injEq, connStatic, Prod.mk.injEq] at hcn
      obtain ⟨hpins, hlabels, hpo⟩ := hcn
      simp only [e1, e2, hpins, hlabels]

/-- Hence the whole endpoint loop reads only static connector data. -/
lemma connectResolve_congr (h h1 : Harness)
    (hc : ∀ m, (lookupA h1.connectors m).map connStatic
      = (lookupA h.connectors m).map connStatic)
    (fn : Option String) (fp : PVal) (tn : Option String) (tp : PVal) :
    connectResolve h1 fn fp tn tp = connectResolve h fn fp tn tp := by
  unfold connectResolve
  rw [iterBody_congr h h1 hc, iterBody_congr h h1 hc]

/-- Pin-object lookup reads only static connector data. -/
lemma getPinObjOpt_congr (h h1 : Harness)
    (hc : ∀ m, (lookupA h1.connectors m).map connStatic
      = (lookupA h.connectors m).map connStatic)
    (nm : Option String) (p : PVal) :
    getPinObjOpt h1 nm p = getPinObjOpt h nm p := by
  unfold getPinObjOpt
  rcases nm with _ | n
  · rfl
  · have hcn := hc n
    rcases e1 : lookupA h1.connectors n with _ | c1 <;>
      rcases e2 : lookupA h.connectors n with _ | c2
    · simp only [e1, e2]
    · rw [e1, e2] at hcn
      exact absurd hcn (by simp)
    · rw [e1, e2] at hcn
      exact absurd hcn (by simp)
    · rw [e1, e2] at hcn
      simp only [Option.map_some', Option.some.injEq, connStatic, Prod.mk.injEq] at hcn
      obtain ⟨hpins, hlabels, hpo⟩ := hcn
      simp only [e1, e2]
      unfold Connector.get_pin_by_id
      rw [hpo]

/-- Wire-reference resolution reads only static cable data. -/
lemma resolveWireRef_congr (h h1 : Harness)
    (hc : ∀ m, (lookupA h1.cables m).map cabStatic = (lookupA h.cables m).map cabStatic)
    (vn : String) (vw : PVal) :
    resolveWireRef h1 vn vw = resolveWireRef h vn vw := by
  unfold resolveWireRef
  have hcn := hc vn
  rcases e1 : lookupA h1.cables vn with _ | c1 <;>
    rcases e2 : lookupA h.cables vn with _ | c2
  · simp only [e1, e2]
  · rw [e1, e2] at hcn
    exact absurd hcn (by simp)
  · rw [e1, e2] at hcn
    exact absurd hcn (by simp)
  · rw [e1, e2] at hcn
    simp only [Option.map_some', Option.some.injEq, cabStatic, Prod.mk.injEq] at hcn
    obtain ⟨hcolors, hlabels, hwo⟩ := hcn
    simp only [e1, e2, hcolors, hlabels]

/-- Wire lookup reads only the wire objects. -/
lemma get_wire_by_id_congr (cb1 cb : Cable) (hw : cb1.wire_objects = cb.wire_objects)
    (wid : PVal) : cb1.get_wire_by_id wid = cb.get_wire_by_id wid := by
  unfold Cable.get_wire_by_id
  rw [hw]

/-- `connectS` either failed and left the harness untouched, or succeeded. -/
lemma connectS_cases (h : Harness) (fn : Option String) (fp : PVal) (vn : String)
    (vw : PVal) (tn : Option String) (tp : PVal) :
    (connectS h fn fp vn vw tn tp).1 = h ∨ (connectS h fn fp vn vw tn tp).2 = none := by
  unfold connectS
  repeat' split
  all_goals simp

/-- Success shape of `connectS`: every fallible step succeeded and the result
harness is exactly the `connectCommit` of their outputs. -/
lemma connectS_ok_shape (h : Harness) (fn : Option String) (fp : PVal) (vn : String)
    (vw : PVal) (tn : Option String) (tp : PVal) (h1 : Harness)
    (hs : connectS h fn fp vn vw tn tp = (h1, none)) :
    ∃ fp2 tp2 vw2 fpo tpo cb w,
      connectResolve h fn fp tn tp = .ok (fp2, tp2) ∧
      resolveWireRef h vn vw = .ok vw2 ∧
      getPinObjOpt h fn fp2 = .ok fpo ∧
      getPinObjOpt h tn tp2 = .ok tpo ∧
      lookupA h.cables vn = some cb ∧
      cb.get_wire_by_id vw2 = .ok w ∧
      h1 = connectCommit h fn fp2 tn tp2 vn fpo tpo w := by
  unfold connectS at hs
  repeat' split at hs
  any_goals simp at hs
  exact ⟨_, _, _, _, _, _, _, by assumption, by assumption, by assumption, by assumption,
    by assumption, by assumption, hs.symm⟩

/-- When the two ends name different connectors, the endpoint loop of
`connect` resolves each end independently (the cross write-backs are guarded
by name equality). -/
lemma connectResolve_ne (h : Harness) (a b : String) (fp tp fp2 tp2 : PVal) (hab : a ≠ b)
    (hres : connectResolve h (some a) fp (some b) tp = .ok (fp2, tp2)) :
    resolveEndPin h a fp = .ok fp2 ∧ resolveEndPin h b tp = .ok tp2 := by
  have hab1 : ¬ ((some a : Option String) = some b) := by simp [hab]
  have hab2 : ¬ ((some b : Option String) = some a) := by simp [Ne.symm hab]
  unfold connectResolve at hres
  rcases r1e : iterBody h (some a) fp with er | r1
  · rw [r1e] at hres
    exact absurd hres (by simp)
  · rw [r1e] at hres
    rcases r2e : iterBody h (some b) tp with er | r2
    · rw [r2e] at hres
      exact absurd hres (by simp)
    · rw [r2e] at hres
      unfold resolveEndPin
      rw [r1e, r2e]
      rcases r1 with _ | m1 <;> rcases r2 with _ | m2 <;>
        simp only [Option.getD, if_neg hab1, if_neg hab2, Except.ok.injEq,
          Prod.mk.injEq] at hres <;>
        simp only [hres.1, hres.2] <;>
        exact ⟨trivial, trivial⟩

/-- A successful named-end pin-object resolution implies the connector is
present. -/
lemma getPinObjOpt_some (h : Harness) (n : String) (p : PVal) (r : Option PinClass)
    (hg : getPinObjOpt h (some n) p = .ok r) :
    ∃ c, lookupA h.connectors n = some c := by
  unfold getPinObjOpt at hg
  cases e : lookupA h.connectors n with
  | none =>
    simp only [e] at hg
    exact absurd hg (by simp)
  | some c => exact ⟨c, rfl⟩

/-- Summing a boolean dict's values counts its true entries. -/
lemma boolSum_eq_filter_length (l : List (PVal × Bool)) :
    boolSum l = (l.filter (fun kv => kv.2)).length := by
  induction l with
  | nil => rfl
  | cons kv t ih =>
    by_cases hv : kv.2 <;>
      simp [boolSum, List.filter_cons, hv] <;>
      simp [boolSum] at ih <;> omega

/-- Every value stored in a connector's activation map is `True`. -/
def allTrueVP (c : Connector) : Prop := ∀ kv ∈ c.visible_pins, kv.2 = true

/-- Every activation value of every connector of a harness is `True`. -/
def allTrueH (h : Harness) : Prop :=
  ∀ n c, lookupA h.connectors n = some c → allTrueVP c

/-- Inserting `true` preserves the all-true property of the values. -/
lemma allTrue_dinsert (l : List (PVal × Bool)) (k : PVal)
    (hl : ∀ kv ∈ l, kv.2 = true) : ∀ kv ∈ dinsert k true l, kv.2 = true := by
  induction l with
  | nil =>
    intro kv hkv
    rw [List.mem_singleton.mp hkv]
  | cons p t ih =>
    obtain ⟨pk, pv⟩ := p
    intro kv hkv
    by_cases hpk : pk = k
    · rw [show dinsert k true ((pk, pv) :: t) = (pk, true) :: t from if_pos hpk] at hkv
      rcases List.mem_cons.mp hkv with rfl | hmem
      · rfl
      · exact hl kv (List.mem_cons_of_mem _ hmem)
    · rw [show dinsert k true ((pk, pv) :: t) = (pk, pv) :: dinsert k true t
          from if_neg hpk] at hkv
      rcases List.mem_cons.mp hkv with rfl | hmem
      · exact hl (pk, pv) (List.mem_cons_self _ _)
      · exact ih (fun kv2 hkv2 => hl kv2 (List.mem_cons_of_mem _ hkv2)) kv hmem

/-- A key already mapped to `true` keeps mapping to `true` after any
`dinsert` of `true`. -/
lemma lookupB_dinsert_true (l : List (PVal × Bool)) (k p : PVal)
    (hk : lookupB l k = some true) :
    lookupB (dinsert p true l) k = some true := by
  by_cases hkp : k = p
  · subst hkp
    exact lookupB_dinsert_self k true l
  · rw [lookupB_dinsert_ne p k true l hkp]
    exact hk

/-- The key list after a `dinsert`: unchanged when the key was present,
extended by the key otherwise. -/
lemma dinsert_keys (l : List (PVal × Bool)) (k : PVal) (v : Bool) :
    (dinsert k v l).map Prod.fst
      = if k ∈ l.map Prod.fst then l.map Prod.fst else l.map Prod.fst ++ [k] := by
  induction l with
  | nil => simp [dinsert]
  | cons p t ih =>
    obtain ⟨pk, pv⟩ := p
    by_cases hpk : pk = k
    · subst hpk
      simp [dinsert]
    · rw [show dinsert k v ((pk, pv) :: t) = (pk, pv) :: dinsert k v t from if_neg hpk]
      simp only [List.map_cons, ih]
      by_cases hmem : k ∈ t.map Prod.fst
      · rw [if_pos hmem, if_pos (List.mem_cons_of_mem _ hmem)]
      · rw [if_neg hmem, if_neg (by simp [List.mem_cons, Ne.symm hpk, hmem])]
        rw [List.cons_append]

/-- `dinsert` keeps the key list duplicate-free. -/
lemma dinsert_keys_nodup (l : List (PVal × Bool)) (k : PVal) (v : Bool)
    (hnd : (l.map Prod.fst).Nodup) : ((dinsert k v l).map Prod.fst).Nodup := by
  rw [dinsert_keys]
  split
  · exact hnd
  · rename_i hk
    simp [List.nodup_append, hnd, hk]

/-- Activation inserts only `true` values. -/
lemma activate_pin_allTrue (c : Connector) (p : PVal) (s : Side) (hc : allTrueVP c) :
    allTrueVP (c.activate_pin p s) :=
  fun kv hkv => allTrue_dinsert c.visible_pins p hc kv hkv

/-- Activation never deactivates a pin. -/
lemma activate_pin_keeps_true (c : Connector) (p k : PVal) (s : Side)
    (hk : lookupB c.visible_pins k = some true) :
    lookupB (c.activate_pin p s).visible_pins k = some true :=
  lookupB_dinsert_true c.visible_pins k p hk

/-- `connectCommit` preserves the all-true activation invariant. -/
lemma connectCommit_allTrue (h : Harness) (fn : Option String) (fp2 : PVal)
    (tn : Option String) (tp2 : PVal) (vn : String) (fpo tpo : Option PinClass)
    (w : WireClass) (hAll : allTrueH h) :
    allTrueH (connectCommit h fn fp2 tn tp2 vn fpo tpo w) := by
  intro n c hc
  rw [connectCommit_connectors_lookup] at hc
  split at hc <;> split at hc <;>
    rcases e : lookupA h.connectors n with _ | c0 <;> rw [e] at hc <;> simp at hc <;>
    rw [← hc] <;>
    first
      | exact activate_pin_allTrue _ _ _ (activate_pin_allTrue _ _ _ (hAll n c0 e))
      | exact activate_pin_allTrue _ _ _ (hAll n c0 e)
      | exact hAll n c0 e

/-- `connectCommit` never deactivates an activated pin. -/
lemma connectCommit_keeps_true (h : Harness) (fn : Option String) (fp2 : PVal)
    (tn : Option String) (tp2 : PVal) (vn : String) (fpo tpo : Option PinClass)
    (w : WireClass) (n : String) (c : Connector) (k : PVal)
    (hc : lookupA h.connectors n = some c)
    (hk : lookupB c.visible_pins k = some true) :
    ∃ c1, lookupA (connectCommit h fn fp2 tn tp2 vn fpo tpo w).connectors n = some c1 ∧
      lookupB c1.visible_pins k = some true := by
  rw [connectCommit_connectors_lookup]
  split
  · split
    · rw [hc]
      exact ⟨_, rfl, activate_pin_keeps_true _ _ _ _ (activate_pin_keeps_true _ _ _ _ hk)⟩
    · rw [hc]
      exact ⟨_, rfl, activate_pin_keeps_true _ _ _ _ hk⟩
  · split
    · rw [hc]
      exact ⟨_, rfl, activate_pin_keeps_true _ _ _ _ hk⟩
    · exact ⟨c, hc, hk⟩

/-- Connector lookup through `mateCommit`. -/
lemma mateCommit_lookup (h : Harness) (fn : String) (fp : PVal) (tn : String) (tp : PVal)
    (fpo tpo : PinClass) (dir : ArrowDirection) (m : String) :
    lookupA (mateCommit h fn fp tn tp fpo tpo dir).connectors m
      = (if m = tn
         then (if m = fn
               then (lookupA h.connectors m).map (fun c => c.activate_pin fp .RIGHT)
               else lookupA h.connectors m).map (fun c => c.activate_pin tp .LEFT)
         else (if m = fn
               then (lookupA h.connectors m).map (fun c => c.activate_pin fp .RIGHT)
               else lookupA h.connectors m)) := by
  unfold mateCommit
  dsimp only
  rw [lookupA_mapAtKey, lookupA_mapAtKey]

/-- `addMatePinS` either failed and left the harness untouched, or committed. -/
lemma addMatePinS_cases (h : Harness) (fn : String) (fp : PVal) (tn : String) (tp : PVal)
    (astr : String) :
    (addMatePinS h fn fp tn tp astr).1 = h ∨
    ∃ fpo tpo dir, (addMatePinS h fn fp tn tp astr).1
      = mateCommit h fn fp tn tp fpo tpo dir := by
  unfold addMatePinS
  repeat' split
  any_goals (left; rfl)
  right
  exact ⟨_, _, _, rfl⟩

/-- `mateCommit` preserves the all-true activation invariant. -/
lemma mateCommit_allTrue (h : Harness) (fn : String) (fp : PVal) (tn : String) (tp : PVal)
    (fpo tpo : PinClass) (dir : ArrowDirection) (hAll : allTrueH h) :
    allTrueH (mateCommit h fn fp tn tp fpo tpo dir) := by
  intro n c hc
  rw [mateCommit_lookup] at hc
  split at hc <;> split at hc <;>
    rcases e : lookupA h.connectors n with _ | c0 <;> rw [e] at hc <;> simp at hc <;>
    rw [← hc] <;>
    first
      | exact activate_pin_allTrue _ _ _ (activate_pin_allTrue _ _ _ (hAll n c0 e))
      | exact activate_pin_allTrue _ _ _ (hAll n c0 e)
      | exact hAll n c0 e

/-- `mateCommit` never deactivates an activated pin. -/
lemma mateCommit_keeps_true (h : Harness) (fn : String) (fp : PVal) (tn : String)
    (tp : PVal) (fpo tpo : PinClass) (dir : ArrowDirection) (n : String) (c : Connector)
    (k : PVal) (hc : lookupA h.connectors n = some c)
    (hk : lookupB c.visible_pins k = some true) :
    ∃ c1, lookupA (mateCommit h fn fp tn tp fpo tpo dir).connectors n = some c1 ∧
      lookupB c1.visible_pins k = some true := by
  rw [mateCommit_lookup]
  split
  · split
    · rw [hc]
      exact ⟨_, rfl, activate_pin_keeps_true _ _ _ _ (activate_pin_keeps_true _ _ _ _ hk)⟩
    · rw [hc]
      exact ⟨_, rfl, activate_pin_keeps_true _ _ _ _ hk⟩
  · split
    · rw [hc]
      exact ⟨_, rfl, activate_pin_keeps_true _ _ _ _ hk⟩
    · exact ⟨c, hc, hk⟩

/-- On an all-true dict, summing the values counts the entries. -/
lemma boolSum_allTrue (l : List (PVal × Bool)) (hl : ∀ kv ∈ l, kv.2 = true) :
    boolSum l = l.length := by
  induction l with
  | nil => rfl
  | cons kv t ih =>
    have hkv := hl kv (List.mem_cons_self _ _)
    have := ih (fun kv2 hkv2 => hl kv2 (List.mem_cons_of_mem _ hkv2))
    simp [boolSum, hkv] at this ⊢
    omega

/-- `resolveColors` always returns as many colors as the wirecount. -/
lemma resolveColors_length (wc0 : Option Nat) (cs0 : List String) (cc : Option String)
    (n : Nat) (cs : List String) (hok : resolveColors wc0 cs0 cc = .ok (n, cs)) :
    cs.length = n := by
  unfold resolveColors at hok
  repeat' split at hok
  any_goals solve
    | exfalso
      simp at hok
  all_goals
    try simp only [] at hok
    rw [Except.ok.injEq, Prod.mk.injEq] at hok
    rw [← hok.1, ← hok.2]
    try simp

/-- A passed part-list check on a bundle pins the list length to the
wirecount. -/
lemma partListCheck_none_bundle (cat : Option String) (wc : Nat) (l : List String)
    (hb : cat = some "bundle") (hn : partListCheck cat wc (.list l) = none) :
    l.length = wc := by
  simp only [partListCheck] at hn
  rw [if_pos hb] at hn
  by_cases hl : l.length = wc
  · exact hl
  · rw [if_pos hl] at hn
    exact Option.noConfusion hn

/-- Success shape of `mkCable`: the color list length equals the wirecount,
the category is as supplied, and on a bundle every part-number field that is
a list has wirecount entries. -/
lemma mkCable_ok (a : CableArgs) (cb : Cable) (hok : mkCable a = .ok cb) :
    cb.colors.length = cb.wirecount ∧ cb.category = a.category ∧
    (cb.category = some "bundle" →
      ∀ f ∈ [cb.manufacturer, cb.mpn, cb.supplier, cb.spn, cb.pn],
        ∀ l, f = .list l → l.length = cb.wirecount) := by
  unfold mkCable at hok
  try simp only [] at hok
  repeat' split at hok
  any_goals solve
    | exfalso
      simp at hok
  all_goals
    rw [Except.ok.injEq] at hok
    subst hok
    refine ⟨resolveColors_length a.wirecount a.colors a.color_code _ _ (by assumption),
      rfl, ?_⟩
    intro hb f hf l hfl
    subst hfl
    refine partListCheck_none_bundle a.category _ l hb ?_
    exact List.findSome?_eq_none_iff.mp (by assumption) _ hf

/-- `getD` after mapping `some` is `get?`. -/
lemma getD_map_some {α : Type} (l : List α) (i : Nat) :
    (l.map some).getD i none = l.get? i := by
  induction l generalizing i with
  | nil => cases i <;> rfl
  | cons x t ih =>
    cases i with
    | zero => rfl
    | succ j => exact ih j

/-- `getD` inside a replicate. -/
lemma getD_replicate {α : Type} (v d : α) :
    ∀ (n i : Nat), i < n → (List.replicate n v).getD i d = v := by
  intro n
  induction n with
  | zero =>
    intro i hi
    exact absurd hi (by omega)
  | succ n ih =>
    intro i hi
    cases i with
    | zero => rfl
    | succ j =>
      rw [List.replicate_succ, List.getD_cons_succ]
      exact ih j (by omega)

/-- The broadcast/zip of `Component.bom_hash` delivers, at each wire index,
exactly the per-index selection from each field. -/
lemma forceList_getD (n : Nat) (f : LS) (i : Nat) (hi : i < n)
    (hf : ∀ l, f = .list l → l.length = n) :
    (forceList n f).getD i none = f.pick i := by
  cases f with
  | scalar v =>
    rw [show forceList n (.scalar v) = List.replicate n v from rfl]
    rw [getD_replicate v none n i hi]
    rfl
  | list l =>
    rw [show forceList n (.list l) = l.map some from rfl, getD_map_some]
    rfl

/-- Broadcast fields all have wire-count length. -/
lemma forceList_length (n : Nat) (f : LS) (hf : ∀ l, f = .list l → l.length = n) :
    (forceList n f).length = n := by
  cases f with
  | scalar v => simp [forceList]
  | list l => simp [forceList, hf l rfl]

/-- Characterization of the bundle hash list: one entry per color, and the
entry at index `i` carries the bundle description, the unit, and the
per-index part-number selections. -/
lemma bomHashList_spec (cb : Cable)
    (hfs : ∀ f ∈ [cb.manufacturer, cb.mpn, cb.supplier, cb.spn, cb.pn],
      ∀ l, f = .list l → l.length = cb.colors.length) :
    cb.bomHashList.length = cb.colors.length ∧
    ∀ i, i < cb.colors.length →
      cb.bomHashList.get? i = some ⟨some cb.bundleDescElem, cb.unit,
        ⟨cb.pn.pick i, cb.manufacturer.pick i, cb.mpn.pick i,
         cb.supplier.pick i, cb.spn.pick i⟩⟩ := by
  have hpn := hfs cb.pn (by simp)
  have hmfr := hfs cb.manufacturer (by simp)
  have hmpn := hfs cb.mpn (by simp)
  have hsup := hfs cb.supplier (by simp)
  have hspn := hfs cb.spn (by simp)
  set n := cb.colors.length with hn
  have hdl : (cb.descriptionList.map some).length = n := by
    simp [Cable.descriptionList]
  have hul : (List.replicate n cb.unit).length = n := by simp
  have hm : min (cb.descriptionList.map some).length
      (min (List.replicate n cb.unit).length
        (min (forceList n cb.pn).length (min (forceList n cb.manufacturer).length
          (min (forceList n cb.mpn).length (min (forceList n cb.supplier).length
            (forceList n cb.spn).length))))) = n := by
    rw [hdl, hul, forceList_length n cb.pn hpn, forceList_length n cb.manufacturer hmfr,
      forceList_length n cb.mpn hmpn, forceList_length n cb.supplier hsup,
      forceList_length n cb.spn hspn]
    simp
  constructor
  · show ((List.range _).map _).length = n
    rw [List.length_map, List.length_range]
    exact hm
  · intro i hi
    show ((List.range _).map _).get? i = _
    rw [List.get?_map, List.get?_range (by rw [hm]; exact hi)]
    rw [Option.map_some']
    rw [Option.some.injEq]
    have hdesc : (cb.descriptionList.map some).getD i none = some cb.bundleDescElem := by
      rw [show cb.descriptionList.map some
          = cb.colors.map (fun _ => some cb.bundleDescElem) from by
        simp [Cable.descriptionList]]
      have : i < (cb.colors.map (fun _ => some cb.bundleDescElem)).length := by
        simpa using hi
      rw [List.getD_eq_getElem _ _ this]
      simp
    rw [hdesc, getD_replicate cb.unit none n i hi,
      forceList_getD n cb.pn i hi hpn, forceList_getD n cb.manufacturer i hi hmfr,
      forceList_getD n cb.mpn i hi hmpn, forceList_getD n cb.supplier i hi hsup,
      forceList_getD n cb.spn i hi hspn]

/-! ## Claim theorems -/

/-- **C9.** For a connector built by the constructor (whose pin ids are
checked to be unique), resolving the pin whose declared id sits at position
`i` of the ordered pin list via `get_pin_by_id` succeeds and returns a pin
object whose `index` is exactly `i`. -/
theorem c9_pin_by_own_id_has_declared_index (a : ConnectorArgs) (c : Connector)
    (hok : mkConnector a = .ok c) (i : Nat) (hi : i < c.pins.length) :
    ∃ po : PinClass, c.get_pin_by_id (c.pins.get ⟨i, hi⟩) = .ok po ∧ po.index = i := by
  obtain ⟨hnd, hpo⟩ := mkConnector_ok a c hok
  set n := max c.pins.length (max c.pinlabels.length c.pincolors.length) with hn
  set f : Nat → PinClass := fun j =>
    { index := j, id := c.pins.get? j, label := c.pinlabels.get? j,
      color := c.pincolors.get? j, parent := c.designator,
      anonymous := isAutogen c.designator,
      simple := decide (c.style = some "simple") } with hf
  have hpo' : c.pin_objects = (List.range n).map f := by rw [hpo]; rfl
  have hin : i < n := lt_of_lt_of_le hi (le_max_left _ _)
  have hmem : f i ∈ c.pin_objects := by
    rw [hpo']
    exact List.mem_map_of_mem f (List.mem_range.mpr hin)
  have hidq : (f i).id = some (c.pins.get ⟨i, hi⟩) := by
    simp only [hf]
    exact List.get?_eq_get hi
  have hndpo : c.pin_objects.Nodup := by
    rw [hpo']
    refine List.Nodup.map ?_ (List.nodup_range n)
    intro x y hxy
    simpa [hf] using congrArg PinClass.index hxy
  have huniq : ∀ x ∈ c.pin_objects,
      decide (x.id = some (c.pins.get ⟨i, hi⟩)) = true → x = f i := by
    intro x hx hpx
    rw [hpo'] at hx
    obtain ⟨j, hj, rfl⟩ := List.mem_map.mp hx
    rw [List.mem_range] at hj
    rw [decide_eq_true_eq] at hpx
    have hpx' : c.pins.get? j = some (c.pins.get ⟨i, hi⟩) := hpx
    have hjlen : j < c.pins.length := by
      by_contra hge
      rw [List.get?_eq_none.mpr (le_of_not_lt hge)] at hpx'
      exact Option.noConfusion hpx'
    rw [List.get?_eq_get hjlen, Option.some.injEq] at hpx'
    have hji : j = i := by
      have hfin := (List.Nodup.get_inj_iff hnd).mp hpx'
      exact congrArg Fin.val hfin
    rw [hji]
  have hfilter : c.pin_objects.filter
      (fun po => decide (po.id = some (c.pins.get ⟨i, hi⟩))) = [f i] := by
    refine filter_eq_singleton hndpo hmem ?_ huniq
    rw [decide_eq_true_eq]
    exact hidq
  refine ⟨f i, ?_, rfl⟩
  unfold Connector.get_pin_by_id
  rw [hfilter]

/-- **C9 witness.** Pin id 2 of connector A (three pins, ids 1..3) sits at
position 1, and resolving it returns the pin object with index 1. -/
theorem c9_witness :
    mkConnector { designator := "A", pincount := some 3 } = .ok exConnA ∧
    1 < exConnA.pins.length ∧
    ∃ po : PinClass, exConnA.get_pin_by_id (exConnA.pins.get ⟨1, by decide⟩) = .ok po ∧
      po.index = 1 := by
  refine ⟨by decide, by decide, ?_⟩
  exact c9_pin_by_own_id_has_declared_index
    { designator := "A", pincount := some 3 } exConnA (by decide) 1 (by decide)

/-- **C7.** For a connect call whose pin reference occurs only in the
connector's label list and not among its pin ids: a label used more than
once makes the whole call fail with the duplicate-reference error, and a
label used exactly once resolves to the pin id found at that label's index
in the pin list. -/
theorem c7_label_only_resolution (h : Harness) (n : String) (c : Connector) (ref : PVal)
    (hc : lookupA h.connectors n = some c)
    (hnp : ref ∉ c.pins) (hl : ref ∈ c.pinlabels) :
    (countOcc ref c.pinlabels > 1 →
      ∀ vn vw tn tp, (connectS h (some n) ref vn vw tn tp).2 = some .duplicatePin) ∧
    (countOcc ref c.pinlabels = 1 →
      ∀ pid, c.pins.get? (idxOfP ref c.pinlabels) = some pid →
        iterBody h (some n) ref = .ok (some pid) ∧
        resolveEndPin h n ref = .ok pid) := by
  constructor
  · intro hcnt vn vw tn tp
    have hiter : iterBody h (some n) ref = .error .duplicatePin := by
      unfold iterBody
      simp only [hc]
      rw [if_neg (fun hcon => hnp hcon.1), if_pos hl, if_pos hcnt]
    have hres : connectResolve h (some n) ref tn tp = .error .duplicatePin := by
      unfold connectResolve
      rw [hiter]
    unfold connectS
    rw [hres]
  · intro hcnt pid hpid
    have hiter : iterBody h (some n) ref = .ok (some pid) := by
      unfold iterBody
      simp only [hc]
      rw [if_neg (fun hcon => hnp hcon.1), if_pos hl,
        if_neg (by rw [hcnt]; exact lt_irrefl 1), hpid]
      exact if_pos (List.get?_mem hpid)
    refine ⟨hiter, ?_⟩
    unfold resolveEndPin
    rw [hiter]

/-- **C7 witness.** On connector X (pins 1, 2; labels "a", "b") the label "a"
occurs exactly once, with pin id 1 at its index, and resolving it yields 1;
on connector Z (pins 1, 2; labels "d", "d") the label "d" occurs twice and
any connect call referencing it fails with the duplicate error. -/
theorem c7_witness :
    (lookupA exHarnessX.connectors "X" = some exConnX ∧ PVal.pstr "a" ∉ exConnX.pins ∧
     PVal.pstr "a" ∈ exConnX.pinlabels ∧ countOcc (.pstr "a") exConnX.pinlabels = 1 ∧
     exConnX.pins.get? (idxOfP (.pstr "a") exConnX.pinlabels) = some (.pint 1)) ∧
    iterBody exHarnessX (some "X") (.pstr "a") = .ok (some (.pint 1)) ∧
    (lookupA exHarnessZ.connectors "Z" = some exConnZ ∧ PVal.pstr "d" ∉ exConnZ.pins ∧
     PVal.pstr "d" ∈ exConnZ.pinlabels ∧ countOcc (.pstr "d") exConnZ.pinlabels > 1) ∧
    (connectS exHarnessZ (some "Z") (.pstr "d") "W1" (.pint 1) none (.pint 1)).2
      = some .duplicatePin := by
  refine ⟨by decide, ?_, by decide, ?_⟩
  · exact ((c7_label_only_resolution exHarnessX "X" exConnX (.pstr "a") (by decide)
      (by decide) (by decide)).2 (by decide) (.pint 1) (by decide)).1
  · exact (c7_label_only_resolution exHarnessZ "Z" exConnZ (.pstr "d") (by decide)
      (by decide) (by decide)).1 (by decide) "W1" (.pint 1) none (.pint 1)

/-- **C6 counterexample.** The claim as stated says that a reference
occurring in both the pin-id list and the label list *at the same index*
resolves successfully.  On connector Y (pins ["X", 2], pinlabels
["X", "X"]) the reference "X" occurs in both lists at first-occurrence
index 0, yet the connect call fails with the duplicate-reference error,
because the duplicate-label check runs after the ambiguity check. -/
theorem c6_counterexample :
    mkConnector
        { designator := "Y", pins := [.pstr "X", .pint 2],
          pinlabels := [.pstr "X", .pstr "X"] }
      = .ok exConnY ∧
    PVal.pstr "X" ∈ exConnY.pins ∧ PVal.pstr "X" ∈ exConnY.pinlabels ∧
    idxOfP (.pstr "X") exConnY.pins = idxOfP (.pstr "X") exConnY.pinlabels ∧
    (connectS exHarnessY (some "Y") (.pstr "X") "W1" (.pint 1) none (.pint 1)).2
      = some .duplicatePin := by
  refine ⟨by decide, by decide, by decide, by decide, by decide⟩

/-- **C6 (amended).** For a connect-call reference occurring both among a
connector's pin ids and among its pin labels: if the two first-occurrence
indices differ, the call fails with the ambiguous-reference error; if they
coincide and the reference occurs exactly once in the label list, resolution
succeeds to that pin, while a reference occurring more than once in the
label list makes the call fail with the duplicate-reference error.  The
analogous rule holds for a wire reference occurring in both a cable's colors
and wirelabels lists, except that there the duplicate check counts
occurrences in the *colors* list — the branch the source takes when the
reference matches a color: at equal indices, a reference occurring exactly
once in colors resolves to that wire (even if it recurs in wirelabels),
while one occurring more than once in colors fails the call with the
duplicate-reference error. -/
theorem c6_both_lists_resolution (h : Harness) (n : String) (c : Connector) (ref : PVal)
    (hc : lookupA h.connectors n = some c)
    (hp : ref ∈ c.pins) (hl : ref ∈ c.pinlabels) :
    (idxOfP ref c.pins ≠ idxOfP ref c.pinlabels →
      ∀ vn vw tn tp, (connectS h (some n) ref vn vw tn tp).2 = some .ambiguousPin) ∧
    (idxOfP ref c.pins = idxOfP ref c.pinlabels →
      (countOcc ref c.pinlabels = 1 →
        iterBody h (some n) ref = .ok (some ref) ∧ resolveEndPin h n ref = .ok ref) ∧
      (countOcc ref c.pinlabels > 1 →
        ∀ vn vw tn tp, (connectS h (some n) ref vn vw tn tp).2 = some .duplicatePin)) ∧
    (∀ (vn : String) (cb : Cable) (vw : PVal),
      lookupA h.cables vn = some cb →
      vw ∈ cb.colors.map PVal.pstr → vw ∈ cb.wirelabels →
      (idxOfP vw (cb.colors.map PVal.pstr) ≠ idxOfP vw cb.wirelabels →
        ∀ fp tp, (connectS h none fp vn vw none tp).2 = some .ambiguousWire) ∧
      (idxOfP vw (cb.colors.map PVal.pstr) = idxOfP vw cb.wirelabels →
        (countOcc vw (cb.colors.map PVal.pstr) = 1 →
          resolveWireRef h vn vw = .ok (.pint (idxOfP vw (cb.colors.map PVal.pstr) + 1))) ∧
        (countOcc vw (cb.colors.map PVal.pstr) > 1 →
          ∀ fp tp, (connectS h none fp vn vw none tp).2 = some .duplicateWire))) := by
  refine ⟨?_, ?_, ?_⟩
  · intro hidx vn vw tn tp
    have hiter : iterBody h (some n) ref = .error .ambiguousPin := by
      unfold iterBody
      simp only [hc]
      rw [if_pos ⟨hp, hl, hidx⟩]
    have hres : connectResolve h (some n) ref tn tp = .error .ambiguousPin := by
      unfold connectResolve
      rw [hiter]
    unfold connectS
    rw [hres]
  · intro hidx
    constructor
    · intro hcnt
      have hiter : iterBody h (some n) ref = .ok (some ref) := by
        unfold iterBody
        simp only [hc]
        rw [if_neg (fun hcon => hcon.2.2 hidx), if_pos hl,
          if_neg (by rw [hcnt]; exact lt_irrefl 1)]
        rw [← hidx, idxOfP_get? hp]
        exact if_pos hp
      refine ⟨hiter, ?_⟩
      unfold resolveEndPin
      rw [hiter]
    · intro hcnt vn vw tn tp
      have hiter : iterBody h (some n) ref = .error .duplicatePin := by
        unfold iterBody
        simp only [hc]
        rw [if_neg (fun hcon => hcon.2.2 hidx), if_pos hl, if_pos hcnt]
      have hres : connectResolve h (some n) ref tn tp = .error .duplicatePin := by
        unfold connectResolve
        rw [hiter]
      unfold connectS
      rw [hres]
  · intro vn cb vw hcab hm1 hm2
    constructor
    · intro hidx fp tp
      have hwire : resolveWireRef h vn vw = .error .ambiguousWire := by
        unfold resolveWireRef
        simp only [hcab]
        rw [if_pos ⟨hm1, hm2, hidx⟩]
      have hres : connectResolve h none fp none tp = .ok (fp, tp) := rfl
      unfold connectS
      rw [hres, hwire]
    · intro hidx
      constructor
      · intro hcnt
        unfold resolveWireRef
        simp only [hcab]
        rw [if_neg (fun hcon => hcon.2.2 hidx), if_pos hm1,
          if_neg (by rw [hcnt]; exact lt_irrefl 1)]
      · intro hcnt fp tp
        have hwire : resolveWireRef h vn vw = .error .duplicateWire := by
          unfold resolveWireRef
          simp only [hcab]
          rw [if_neg (fun hcon => hcon.2.2 hidx), if_pos hm1, if_pos hcnt]
        have hres : connectResolve h none fp none tp = .ok (fp, tp) := rfl
        unfold connectS
        rw [hres, hwire]

/-- **C6 witness.** On connector Q (pins [1, "X"], pinlabels ["X", "b"]) the
reference "X" is a pin id at index 1 but a label at index 0, and the connect
call fails with the ambiguous-reference error.  On cable W5 the reference
"r" matches a color twice (looped palette) and a wirelabel at the same first
index, and the call fails with the duplicate-reference error; on cable W6
the reference "g" matches a color exactly once and a (twice-used) wirelabel
at the same first index, and it resolves to wire 1. -/
theorem c6_witness :
    (lookupA exHarnessQ.connectors "Q" = some exConnQ ∧ PVal.pstr "X" ∈ exConnQ.pins ∧
     PVal.pstr "X" ∈ exConnQ.pinlabels ∧
     idxOfP (.pstr "X") exConnQ.pins ≠ idxOfP (.pstr "X") exConnQ.pinlabels) ∧
    (connectS exHarnessQ (some "Q") (.pstr "X") "W1" (.pint 1) none (.pint 1)).2
      = some .ambiguousPin ∧
    (lookupA exHarnessQ.cables "W5" = some exCabW5 ∧
     PVal.pstr "r" ∈ exCabW5.colors.map PVal.pstr ∧ PVal.pstr "r" ∈ exCabW5.wirelabels ∧
     idxOfP (.pstr "r") (exCabW5.colors.map PVal.pstr)
       = idxOfP (.pstr "r") exCabW5.wirelabels ∧
     countOcc (.pstr "r") (exCabW5.colors.map PVal.pstr) > 1) ∧
    (connectS exHarnessQ none (.pint 1) "W5" (.pstr "r") none (.pint 1)).2
      = some .duplicateWire ∧
    (lookupA exHarnessQ.cables "W6" = some exCabW6 ∧
     PVal.pstr "g" ∈ exCabW6.colors.map PVal.pstr ∧ PVal.pstr "g" ∈ exCabW6.wirelabels ∧
     idxOfP (.pstr "g") (exCabW6.colors.map PVal.pstr)
       = idxOfP (.pstr "g") exCabW6.wirelabels ∧
     countOcc (.pstr "g") (exCabW6.colors.map PVal.pstr) = 1) ∧
    resolveWireRef exHarnessQ "W6" (.pstr "g")
      = .ok (.pint (idxOfP (.pstr "g") (exCabW6.colors.map PVal.pstr) + 1)) := by
  have hthm := c6_both_lists_resolution exHarnessQ "Q" exConnQ (.pstr "X") (by decide)
    (by decide) (by decide)
  refine ⟨by decide, ?_, by decide, ?_, by decide, ?_⟩
  · exact hthm.1 (by decide) "W1" (.pint 1) none (.pint 1)
  · exact ((hthm.2.2 "W5" exCabW5 (.pstr "r") (by decide) (by decide) (by decide)).2
      (by decide)).2 (by decide) (.pint 1) (.pint 1)
  · exact ((hthm.2.2 "W6" exCabW6 (.pstr "g") (by decide) (by decide) (by decide)).2
      (by decide)).1 (by decide)

/-- **C5 counterexample.** The claim as stated says every successful connect
marks the resolved "to" pin active on side LEFT of the to connector.  When
both ends name the same connector, the write-back of the label-mapped from
pin overwrites the to pin before the to end is committed: on connector X
(pins 1, 2 with labels "a", "b"), the call connect(X, "a", W1, 1, X, 2)
succeeds, the to reference 2 resolves to pin 2, yet pin 2 is never
activated (the call activates pin 1 on both sides instead). -/
theorem c5_counterexample :
    resolveEndPin exHarnessX "X" (.pint 2) = .ok (.pint 2) ∧
    (connectS exHarnessX (some "X") (.pstr "a") "W1" (.pint 1) (some "X") (.pint 2)).2
      = none ∧
    ((lookupA (connectS exHarnessX (some "X") (.pstr "a") "W1" (.pint 1)
        (some "X") (.pint 2)).1.connectors "X").map
      (fun c => lookupB c.visible_pins (.pint 2))) = some none := by
  refine ⟨by decide, by decide, by decide⟩

/-- **C5 (amended).** Provided the from and to ends name *different*
connectors, every successful connect marks the pin the from reference
resolves to as active on side RIGHT of the from connector and the pin the to
reference resolves to as active on side LEFT of the to connector; pins other
than the two resolved ones keep their previous activation state, connectors
other than the two named ones keep their activation maps, and the
"populated" multiplier of any connector counts the pins marked active in
`visible_pins`.  (When both ends name the same connector, the label
write-back of one end can overwrite the other end's resolved pin, as the
counterexample shows.) -/
theorem c5_connect_activates_resolved_pins (h : Harness) (a b : String) (fp tp vw : PVal)
    (vn : String) (h1 : Harness) (hab : a ≠ b)
    (hs : connectS h (some a) fp vn vw (some b) tp = (h1, none)) :
    (∃ fp2 fc, resolveEndPin h a fp = .ok fp2 ∧ lookupA h.connectors a = some fc ∧
       lookupA h1.connectors a = some (fc.activate_pin fp2 .RIGHT) ∧
       lookupB (fc.activate_pin fp2 .RIGHT).visible_pins fp2 = some true ∧
       (fc.activate_pin fp2 .RIGHT).ports_right = true ∧
       (∀ k, k ≠ fp2 → lookupB (fc.activate_pin fp2 .RIGHT).visible_pins k
          = lookupB fc.visible_pins k)) ∧
    (∃ tp2 tc, resolveEndPin h b tp = .ok tp2 ∧ lookupA h.connectors b = some tc ∧
       lookupA h1.connectors b = some (tc.activate_pin tp2 .LEFT) ∧
       lookupB (tc.activate_pin tp2 .LEFT).visible_pins tp2 = some true ∧
       (tc.activate_pin tp2 .LEFT).ports_left = true ∧
       (∀ k, k ≠ tp2 → lookupB (tc.activate_pin tp2 .LEFT).visible_pins k
          = lookupB tc.visible_pins k)) ∧
    (∀ m, m ≠ a → m ≠ b → lookupA h1.connectors m = lookupA h.connectors m) ∧
    (∀ c : Connector, c.get_qty_multiplier (some "populated")
        = .ok (((c.visible_pins.filter (fun kv => kv.2)).length : Nat) : Rat)) := by
  have hab1 : ¬ ((some a : Option String) = some b) := by simp [hab]
  have hab2 : ¬ ((some b : Option String) = some a) := by simp [Ne.symm hab]
  obtain ⟨fp2, tp2, vw2, fpo, tpo, cb0, w, e1, e2, e3, e4, e5, e6, e7⟩ :=
    connectS_ok_shape h (some a) fp vn vw (some b) tp h1 hs
  obtain ⟨hfp2, htp2⟩ := connectResolve_ne h a b fp tp fp2 tp2 hab e1
  obtain ⟨fc, hfc⟩ := getPinObjOpt_some h a fp2 fpo e3
  obtain ⟨tc, htc⟩ := getPinObjOpt_some h b tp2 tpo e4
  have hinner_a : (if (some a : Option String) = some a ∧ (lookupA h.connectors a).isSome
      then (lookupA h.connectors a).map (fun c => c.activate_pin fp2 .RIGHT)
      else lookupA h.connectors a) = some (fc.activate_pin fp2 .RIGHT) := by
    rw [if_pos ⟨rfl, by rw [hfc]; rfl⟩, hfc]
    rfl
  have hinner_b : (if (some b : Option String) = some a ∧ (lookupA h.connectors b).isSome
      then (lookupA h.connectors b).map (fun c => c.activate_pin fp2 .RIGHT)
      else lookupA h.connectors b) = some tc := by
    rw [if_neg (fun hcon => hab2 hcon.1), htc]
  refine ⟨⟨fp2, fc, hfp2, hfc, ?_, lookupB_dinsert_self fp2 true fc.visible_pins, rfl,
      fun k hk => lookupB_dinsert_ne fp2 k true fc.visible_pins hk⟩,
    ⟨tp2, tc, htp2, htc, ?_, lookupB_dinsert_self tp2 true tc.visible_pins, rfl,
      fun k hk => lookupB_dinsert_ne tp2 k true tc.visible_pins hk⟩, ?_, ?_⟩
  · rw [e7, connectCommit_connectors_lookup, hinner_a,
      if_neg (fun hcon => hab1 hcon.1)]
  · rw [e7, connectCommit_connectors_lookup, hinner_b, if_pos ⟨rfl, rfl⟩]
    rfl
  · intro m hma hmb
    have hma1 : ¬ ((some m : Option String) = some a) := by simp [hma]
    have hmb1 : ¬ ((some m : Option String) = some b) := by simp [hmb]
    rw [e7, connectCommit_connectors_lookup]
    rw [if_neg (fun hcon => hmb1 hcon.1)]
    rw [if_neg (fun hcon => hma1 hcon.1)]
  · intro c
    rw [show c.get_qty_multiplier (some "populated")
        = .ok ((boolSum c.visible_pins : Nat) : Rat) from rfl, boolSum_eq_filter_length]

/-- **C5 witness.** The first connect of the example scenario: pin 1 resolves
on both A and B, gets activated (RIGHT on A, LEFT on B), pin 3 keeps its
state, connector names other than A and B are untouched, and "populated" on
the updated A-connector counts one active pin. -/
theorem c5_witness :
    ("A" : String) ≠ "B" ∧
    connectS exHarness0 (some "A") (.pint 1) "W1" (.pint 1) (some "B") (.pint 1)
      = (exHarness1, none) ∧
    (∃ fp2 fc, resolveEndPin exHarness0 "A" (.pint 1) = .ok fp2 ∧
       lookupA exHarness0.connectors "A" = some fc ∧
       lookupA exHarness1.connectors "A" = some (fc.activate_pin fp2 .RIGHT) ∧
       lookupB (fc.activate_pin fp2 .RIGHT).visible_pins fp2 = some true ∧
       (fc.activate_pin fp2 .RIGHT).ports_right = true ∧
       (∀ k, k ≠ fp2 → lookupB (fc.activate_pin fp2 .RIGHT).visible_pins k
          = lookupB fc.visible_pins k)) ∧
    (∃ tp2 tc, resolveEndPin exHarness0 "B" (.pint 1) = .ok tp2 ∧
       lookupA exHarness0.connectors "B" = some tc ∧
       lookupA exHarness1.connectors "B" = some (tc.activate_pin tp2 .LEFT) ∧
       lookupB (tc.activate_pin tp2 .LEFT).visible_pins tp2 = some true ∧
       (tc.activate_pin tp2 .LEFT).ports_left = true ∧
       (∀ k, k ≠ tp2 → lookupB (tc.activate_pin tp2 .LEFT).visible_pins k
          = lookupB tc.visible_pins k)) := by
  refine ⟨by decide, by decide, ?_⟩
  have hmain := c5_connect_activates_resolved_pins exHarness0 "A" "B" (.pint 1) (.pint 1)
    (.pint 1) "W1" exHarness1 (by decide) (by decide)
  exact ⟨hmain.1, hmain.2.1⟩

/-- **C8.** `connect` is atomic on failure: whenever the embedded
`Harness.connect` reports any error, the returned harness state is exactly
the input state — no `Connection` was appended to any cable and no
connector's activation state changed.  (The embedding performs its mutations
where the source performs them, after the last fallible step.) -/
theorem c8_connect_atomic (h : Harness) (fn : Option String) (fp : PVal) (vn : String)
    (vw : PVal) (tn : Option String) (tp : PVal) (e : Err)
    (he : (connectS h fn fp vn vw tn tp).2 = some e) :
    (connectS h fn fp vn vw tn tp).1 = h := by
  rcases connectS_cases h fn fp vn vw tn tp with h1 | h2
  · exact h1
  · rw [h2] at he
    exact Option.noConfusion he

/-- **C8 witness.** A connect call naming an unknown connector fails with the
KeyError and leaves the harness untouched. -/
theorem c8_witness :
    (connectS exHarness0 (some "Nope") (.pint 1) "W1" (.pint 1) (some "B") (.pint 1)).2
      = some .keyError ∧
    (connectS exHarness0 (some "Nope") (.pint 1) "W1" (.pint 1) (some "B") (.pint 1)).1
      = exHarness0 := by
  refine ⟨by decide, ?_⟩
  exact c8_connect_atomic exHarness0 (some "Nope") (.pint 1) "W1" (.pint 1) (some "B")
    (.pint 1) .keyError (by decide)

/-- **C4.** `connect` never deduplicates: every successful connect call
appends exactly one new `Connection` record at the end of the via cable's
`_connections` (leaving every other cable untouched), and repeating the same
call with identical arguments succeeds again and appends a second identical
record after the first, preserving call order. -/
theorem c4_connect_appends (h : Harness) (fn : Option String) (fp : PVal) (vn : String)
    (vw : PVal) (tn : Option String) (tp : PVal) (h1 : Harness) (cb : Cable)
    (hcb : lookupA h.cables vn = some cb)
    (hs : connectS h fn fp vn vw tn tp = (h1, none)) :
    ∃ r : Connection,
      lookupA h1.cables vn = some { cb with connections_ := cb.connections_ ++ [r] } ∧
      (∀ m, m ≠ vn → lookupA h1.cables m = lookupA h.cables m) ∧
      ∃ h2, connectS h1 fn fp vn vw tn tp = (h2, none) ∧
        lookupA h2.cables vn = some { cb with connections_ := cb.connections_ ++ [r, r] } := by
  obtain ⟨fp2, tp2, vw2, fpo, tpo, cb0, w, e1, e2, e3, e4, e5, e6, e7⟩ :=
    connectS_ok_shape h fn fp vn vw tn tp h1 hs
  rw [hcb] at e5
  obtain rfl := (Option.some.injEq _ _).mp e5
  refine ⟨⟨fpo, w, tpo⟩, ?_, ?_, ?_⟩
  · rw [e7, connectCommit_cables_lookup, if_pos rfl, hcb]
    rfl
  · intro m hm
    rw [e7, connectCommit_cables_lookup, if_neg hm]
  · have hstat : ∀ m, (lookupA h1.connectors m).map connStatic
        = (lookupA h.connectors m).map connStatic := by
      intro m
      rw [e7]
      exact connectCommit_conn_static h fn fp2 tn tp2 vn fpo tpo w m
    have hcabstat : ∀ m, (lookupA h1.cables m).map cabStatic
        = (lookupA h.cables m).map cabStatic := by
      intro m
      rw [e7]
      exact connectCommit_cab_static h fn fp2 tn tp2 vn fpo tpo w m
    have hr1 : connectResolve h1 fn fp tn tp = .ok (fp2, tp2) := by
      rw [connectResolve_congr h h1 hstat, e1]
    have hr2 : resolveWireRef h1 vn vw = .ok vw2 := by
      rw [resolveWireRef_congr h h1 hcabstat, e2]
    have hr3 : getPinObjOpt h1 fn fp2 = .ok fpo := by
      rw [getPinObjOpt_congr h h1 hstat, e3]
    have hr4 : getPinObjOpt h1 tn tp2 = .ok tpo := by
      rw [getPinObjOpt_congr h h1 hstat, e4]
    have hcb1 : lookupA h1.cables vn
        = some { cb with connections_ := cb.connections_ ++ [⟨fpo, w, tpo⟩] } := by
      rw [e7, connectCommit_cables_lookup, if_pos rfl, hcb]
      rfl
    have hr6 : ({ cb with connections_ := cb.connections_ ++ [⟨fpo, w, tpo⟩] } : Cable).get_wire_by_id vw2
        = .ok w := by
      rw [get_wire_by_id_congr
        { cb with connections_ := cb.connections_ ++ [⟨fpo, w, tpo⟩] } cb rfl vw2, e6]
    have hs2 : connectS h1 fn fp vn vw tn tp
        = (connectCommit h1 fn fp2 tn tp2 vn fpo tpo w, none) := by
      unfold connectS
      simp only [hr1, hr2, hr3, hr4, hcb1, hr6]
    refine ⟨connectCommit h1 fn fp2 tn tp2 vn fpo tpo w, hs2, ?_⟩
    rw [connectCommit_cables_lookup, if_pos rfl, hcb1]
    simp [List.append_assoc]

/-- **C4 witness.** The first connect of the example scenario appends one
record to W1, and an identical second call appends a second one. -/
theorem c4_witness :
    lookupA exHarness0.cables "W1" = some exCabW1 ∧
    ∃ r : Connection,
      lookupA exHarness1.cables "W1"
        = some { exCabW1 with connections_ := exCabW1.connections_ ++ [r] } ∧
      (∀ m, m ≠ "W1" → lookupA exHarness1.cables m = lookupA exHarness0.cables m) ∧
      ∃ h2, connectS exHarness1 (some "A") (.pint 1) "W1" (.pint 1) (some "B") (.pint 1)
          = (h2, none) ∧
        lookupA h2.cables "W1"
          = some { exCabW1 with connections_ := exCabW1.connections_ ++ [r, r] } := by
  refine ⟨by decide, ?_⟩
  exact c4_connect_appends exHarness0 (some "A") (.pint 1) "W1" (.pint 1) (some "B")
    (.pint 1) exHarness1 exCabW1 (by decide) (by decide)

/-- **C10.** Pin activation is monotone and Boolean-true only:
`activate_pin` only inserts keys with value True (preserving both the
all-true value invariant and the distinctness of the keys); a pin once
activated stays active across `activate_pin`, `connect` and `add_mate_pin`,
and those operations preserve the all-true invariant harness-wide; on an
all-true map the "populated" multiplier equals the number of (distinct)
activated pin keys. -/
theorem c10_activation_monotone :
    (∀ (c : Connector) (p : PVal) (s : Side),
      allTrueVP c → allTrueVP (c.activate_pin p s)) ∧
    (∀ (c : Connector) (p k : PVal) (s : Side),
      lookupB c.visible_pins k = some true →
      lookupB (c.activate_pin p s).visible_pins k = some true) ∧
    (∀ (c : Connector) (p : PVal) (s : Side),
      (c.visible_pins.map Prod.fst).Nodup →
      ((c.activate_pin p s).visible_pins.map Prod.fst).Nodup) ∧
    (∀ (h : Harness) (fn : Option String) (fp : PVal) (vn : String) (vw : PVal)
      (tn : Option String) (tp : PVal), allTrueH h →
      allTrueH (connectS h fn fp vn vw tn tp).1) ∧
    (∀ (h : Harness) (fn : Option String) (fp : PVal) (vn : String) (vw : PVal)
      (tn : Option String) (tp : PVal) (n : String) (c : Connector) (k : PVal),
      lookupA h.connectors n = some c → lookupB c.visible_pins k = some true →
      ∃ c1, lookupA (connectS h fn fp vn vw tn tp).1.connectors n = some c1 ∧
        lookupB c1.visible_pins k = some true) ∧
    (∀ (h : Harness) (fn : String) (fp : PVal) (tn : String) (tp : PVal) (astr : String),
      allTrueH h → allTrueH (addMatePinS h fn fp tn tp astr).1) ∧
    (∀ (h : Harness) (fn : String) (fp : PVal) (tn : String) (tp : PVal) (astr : String)
      (n : String) (c : Connector) (k : PVal),
      lookupA h.connectors n = some c → lookupB c.visible_pins k = some true →
      ∃ c1, lookupA (addMatePinS h fn fp tn tp astr).1.connectors n = some c1 ∧
        lookupB c1.visible_pins k = some true) ∧
    (∀ c : Connector, allTrueVP c →
      c.get_qty_multiplier (some "populated") = .ok (c.visible_pins.length : Rat)) := by
  refine ⟨activate_pin_allTrue, activate_pin_keeps_true,
    fun c p s hnd => dinsert_keys_nodup c.visible_pins p true hnd, ?_, ?_, ?_, ?_, ?_⟩
  · intro h fn fp vn vw tn tp hAll
    rcases connectS_cases h fn fp vn vw tn tp with h1eq | h2
    · rw [h1eq]
      exact hAll
    · obtain ⟨fp2, tp2, vw2, fpo, tpo, cb, w, e1, e2, e3, e4, e5, e6, e7⟩ :=
        connectS_ok_shape h fn fp vn vw tn tp (connectS h fn fp vn vw tn tp).1
          (by rw [← h2])
      rw [e7]
      exact connectCommit_allTrue h fn fp2 tn tp2 vn fpo tpo w hAll
  · intro h fn fp vn vw tn tp n c k hc hk
    rcases connectS_cases h fn fp vn vw tn tp with h1eq | h2
    · rw [h1eq]
      exact ⟨c, hc, hk⟩
    · obtain ⟨fp2, tp2, vw2, fpo, tpo, cb, w, e1, e2, e3, e4, e5, e6, e7⟩ :=
        connectS_ok_shape h fn fp vn vw tn tp (connectS h fn fp vn vw tn tp).1
          (by rw [← h2])
      rw [e7]
      exact connectCommit_keeps_true h fn fp2 tn tp2 vn fpo tpo w n c k hc hk
  · intro h fn fp tn tp astr hAll
    rcases addMatePinS_cases h fn fp tn tp astr with h1eq | ⟨fpo, tpo, dir, h1eq⟩
    · rw [h1eq]
      exact hAll
    · rw [h1eq]
      exact mateCommit_allTrue h fn fp tn tp fpo tpo dir hAll
  · intro h fn fp tn tp astr n c k hc hk
    rcases addMatePinS_cases h fn fp tn tp astr with h1eq | ⟨fpo, tpo, dir, h1eq⟩
    · rw [h1eq]
      exact ⟨c, hc, hk⟩
    · rw [h1eq]
      exact mateCommit_keeps_true h fn fp tn tp fpo tpo dir n c k hc hk
  · intro c hAll
    rw [show c.get_qty_multiplier (some "populated")
        = .ok ((boolSum c.visible_pins : Nat) : Rat) from rfl]
    rw [boolSum_allTrue c.visible_pins hAll]

/-- **C10 witness.** On the example harness the first connect preserves the
all-true invariant; pin 1 of connector A stays active after the second
connect; and "populated" on the once-activated A-connector counts its
single activated key. -/
theorem c10_witness :
    allTrueH exHarness0 ∧
    allTrueH (connectS exHarness0 (some "A") (.pint 1) "W1" (.pint 1)
      (some "B") (.pint 1)).1 ∧
    (lookupA exHarness1.connectors "A" = some (exConnA.activate_pin (.pint 1) .RIGHT) ∧
     lookupB (exConnA.activate_pin (.pint 1) .RIGHT).visible_pins (.pint 1) = some true ∧
     (∃ c1, lookupA (connectS exHarness1 (some "A") (.pint 2) "W1" (.pint 2)
         (some "B") (.pint 2)).1.connectors "A" = some c1 ∧
       lookupB c1.visible_pins (.pint 1) = some true)) ∧
    (allTrueVP (exConnA.activate_pin (.pint 1) .RIGHT) ∧
     (exConnA.activate_pin (.pint 1) .RIGHT).get_qty_multiplier (some "populated")
       = .ok (((exConnA.activate_pin (.pint 1) .RIGHT).visible_pins.length : Nat) : Rat)) := by
  have hA : allTrueVP exConnA := by
    unfold allTrueVP
    decide
  have hB : allTrueVP exConnB := by
    unfold allTrueVP
    decide
  have h0 : allTrueH exHarness0 := by
    intro n c hc
    revert hc
    unfold exHarness0 lookupA
    split
    · intro hc
      injection hc with hc
      rw [← hc]
      exact hA
    · unfold lookupA
      split
      · intro hc
        injection hc with hc
        rw [← hc]
        exact hB
      · unfold lookupA
        intro hc
        exact Option.noConfusion hc
  have hAact : allTrueVP (exConnA.activate_pin (.pint 1) .RIGHT) := by
    unfold allTrueVP
    decide
  refine ⟨h0, c10_activation_monotone.2.2.2.1 exHarness0 (some "A") (.pint 1) "W1"
      (.pint 1) (some "B") (.pint 1) h0, ⟨by decide, by decide, ?_⟩, hAact, ?_⟩
  · exact c10_activation_monotone.2.2.2.2.1 exHarness1 (some "A") (.pint 2) "W1" (.pint 2)
      (some "B") (.pint 2) "A" (exConnA.activate_pin (.pint 1) .RIGHT) (.pint 1)
      (by decide) (by decide)
  · exact c10_activation_monotone.2.2.2.2.2.2.2 (exConnA.activate_pin (.pint 1) .RIGHT) hAact

/-- **C1.** For every bundle cable, `bom_hash` returns an ordered list with
one `BomHash` per wire, indexed like the wire list: the description, the
unit and each part-number field are either broadcast (scalar repeated to the
wire count) or taken per-index from a supplied per-wire list, and the
per-index values are zipped into the `BomHash` at that wire index.
Constructing a bundle whose part-number list length differs from the
wirecount (here a 2-entry pn list on a wirecount-3 bundle) fails with the
structural "lists of part data must match wirecount" error. -/
theorem c1_bundle_bom_hash :
    (∀ (a : CableArgs) (cb : Cable), mkCable a = .ok cb → cb.category = some "bundle" →
      ∃ l, cb.bom_hash = .perWire l ∧ l.length = cb.wirecount ∧
        ∀ i, i < cb.wirecount →
          l.get? i = some ⟨some cb.bundleDescElem, cb.unit,
            ⟨cb.pn.pick i, cb.manufacturer.pick i, cb.mpn.pick i,
             cb.supplier.pick i, cb.spn.pick i⟩⟩) ∧
    mkCable
        { designator := "W3", category := some "bundle", wirecount := some 3,
          pn := .list ["p1", "p2"] }
      = .error .partListMismatch := by
  constructor
  · intro a cb hok hb
    obtain ⟨hcl, hcat, hlists⟩ := mkCable_ok a cb hok
    have hfs : ∀ f ∈ [cb.manufacturer, cb.mpn, cb.supplier, cb.spn, cb.pn],
        ∀ l, f = .list l → l.length = cb.colors.length := by
      intro f hf l hfl
      rw [hcl]
      exact hlists hb f hf l hfl
    obtain ⟨hlen, helem⟩ := bomHashList_spec cb hfs
    refine ⟨cb.bomHashList, ?_, ?_, ?_⟩
    · unfold Cable.bom_hash
      rw [if_pos hb]
    · rw [hlen, hcl]
    · intro i hi
      exact helem i (by rw [hcl]; exact hi)
  · decide

/-- **C1 witness.** The three-wire bundle with a per-wire pn list of length 3
and a broadcast manufacturer yields exactly 3 `BomHash` values, aligned by
wire index (and, concretely, wire `i` carries pn "p(i+1)" with manufacturer
"M"). -/
theorem c1_witness :
    mkCable exBundleArgs = .ok exBundle ∧ exBundle.category = some "bundle" ∧
    (∃ l, exBundle.bom_hash = .perWire l ∧ l.length = exBundle.wirecount ∧
      ∀ i, i < exBundle.wirecount →
        l.get? i = some ⟨some exBundle.bundleDescElem, exBundle.unit,
          ⟨exBundle.pn.pick i, exBundle.manufacturer.pick i, exBundle.mpn.pick i,
           exBundle.supplier.pick i, exBundle.spn.pick i⟩⟩) ∧
    exBundle.bom_hash = .perWire
      [⟨some "Wire", some "m", ⟨some "p1", some "M", none, none, none⟩⟩,
       ⟨some "Wire", some "m", ⟨some "p2", some "M", none, none, none⟩⟩,
       ⟨some "Wire", some "m", ⟨some "p3", some "M", none, none, none⟩⟩] := by
  refine ⟨by decide, by decide, ?_, by decide⟩
  exact c1_bundle_bom_hash.1 exBundleArgs exBundle (by decide) (by decide)

/-- **C2.** The claim states that BOM aggregation is keyed by `BomHash`, that
equal-hash components merge into one entry with summed quantity and unioned
designator set, and that a bundle cable is accumulated once per wire using
that wire's per-wire hash.  The first parts hold (shown here on two
`AdditionalComponent`s with identical type, subtype and part numbers but
different designators, while an item with `ignore_in_bom` set is skipped
entirely), but the bundle branch of `_add_to_internal_bom` does
not use the per-wire hashes at all: evaluating it on a two-wire bundle of
length 1 shows every wire accumulated under the hash `None` with quantity
`length + 0.001` and category `"wire DUMMY"`, even though `bom_hash` does
provide the two per-wire hashes. -/
theorem c2_bundle_bom_ignores_per_wire_hash :
    addToInternalBom [] (.addl { exAC with ignore_in_bom := true }) = [] ∧
    ({ exAC with designators := some "J1" } : AdditionalComponent).bom_hash
      = ({ exAC with designators := some "J2" } : AdditionalComponent).bom_hash ∧
    addToInternalBom (addToInternalBom [] (.addl { exAC with designators := some "J1" }))
        (.addl { exAC with designators := some "J2" })
      = [(some exAC.bom_hash,
          { qty := 999 + 999, designators := ["J1", "J2"], category := some "additional" })] ∧
    exBundleW4.bom_hash = .perWire
      [⟨some "Wire", some "m", ⟨none, none, none, none, none⟩⟩,
       ⟨some "Wire", some "m", ⟨none, none, none, none, none⟩⟩] ∧
    addToInternalBom [] (.cable exBundleW4)
      = [(none, { qty := 1 + 1 / 1000 + (1 + 1 / 1000), designators := ["W4"],
                  category := some "wire DUMMY" })] := by
  refine ⟨by decide, by decide, by with_unfolding_all rfl, by decide, by with_unfolding_all rfl⟩

/-- **C3.** The claim states that after the build phase,
`get_qty_multiplier("terminations")` on a cable returns the number of
recorded `Connection` records (here 2 after two connect calls routed via
W1).  The source instead evaluates `len(self.connections)`, and the `Cable`
class hierarchy defines only `_connections` — there is no attribute or
property named `connections` — so the call raises `AttributeError` instead
of returning 2. -/
theorem c3_terminations_attribute_error :
    mkCable { designator := "W1", wirecount := some 2, length := 1 } = .ok exCabW1 ∧
    (connectS exHarness0 (some "A") (.pint 1) "W1" (.pint 1) (some "B") (.pint 1)).2 = none ∧
    (connectS exHarness1 (some "A") (.pint 2) "W1" (.pint 2) (some "B") (.pint 2)).2 = none ∧
    (lookupA exHarness2.cables "W1").map (fun cb => cb.connections_.length) = some 2 ∧
    (lookupA exHarness2.cables "W1").map
        (fun cb => cb.get_qty_multiplier (some "terminations"))
      = some (.error .attributeError) := by
  refine ⟨by decide, by decide, by decide, by decide, by decide⟩

end Wv
